import Mathlib

/-!
# Verification of the snap-and-dock core of the layouts service

This file gives a shallow embedding of the snap resolution and
group-membership engine (`SnapService`, from the provider sources) and of the
preview-rectangle computation (`Preview.ts`), and proves the spec's claims
about them.

Coordinates are modelled as rationals; JavaScript `Math.sign` is modelled by
`jsign`.  The registry (`SnapService.windows` / `SnapService.groups`) is
modelled as a record `ServiceState` holding the window list, the group list,
a counter for fresh group ids, the set of group ids whose notification
handlers are wired to the service, and the preview-view state.  Windows are
addressed by their (unique) `WindowIdentity`; a group stores the ordered
list of its members' identities and each window stores the id of its group
(the back-reference described in the spec's data model).

`SnapGroup.ts`, `SnapWindow.ts`, `Resolver.ts` and `RectUtils.ts` are not
among the sources; the definitions translated from them are modelled from
the spec and marked `Modelled from the spec:`.  Everything else is
translated directly from `SnapService.ts` and `Preview.ts`.
-/

/-- A plain 2D coordinate, also used as a displacement vector. -/
structure Point where
  x : ℚ
  y : ℚ
deriving DecidableEq

/-- Axis-aligned rectangle as center plus half-extent (`WindowState`'s
geometric part). -/
structure Rect where
  center : Point
  halfSize : Point
deriving DecidableEq

/-- Stable, externally assigned identifier pair, unique across the process. -/
structure WindowIdentity where
  uuid : String
  name : String
deriving DecidableEq

/-- JavaScript `Math.sign` on rationals (no NaN case is needed over ℚ). -/
def jsign (q : ℚ) : ℚ :=
  if q < 0 then -1 else if 0 < q then 1 else 0

/-- Result of `RectUtils.distance`: the signed gap on each axis. -/
structure MeasureResult where
  x : ℚ
  y : ℚ
deriving DecidableEq

/-- The signed gap on the axis with the smaller signed gap (negative exactly
when the rectangles overlap on some axis). -/
def MeasureResult.min (m : MeasureResult) : ℚ := Min.min m.x m.y

/-- The smaller of the two absolute gaps; `0` exactly when the rectangles
are touching on some axis. -/
def MeasureResult.minAbs (m : MeasureResult) : ℚ := Min.min |m.x| |m.y|

/-- Modelled from the spec: `RectUtils.distance` (RectUtils.ts is not among
the sources).  "returns, per axis, the signed gap between the two
rectangles' facing edges (negative when overlapping on that axis, zero when
exactly touching, positive when separated)"; `minAbs = 0` is the spec's
"touching" test and `min < 0` its "overlapping along the other axis" test. -/
def RectUtils.distance (a b : Rect) : MeasureResult :=
  ⟨|b.center.x - a.center.x| - (b.halfSize.x + a.halfSize.x),
   |b.center.y - a.center.y| - (b.halfSize.y + a.halfSize.y)⟩

/-- A tracked window: identity, latest cached rectangle state, and the
back-reference to its current group (`SnapWindow`). -/
structure SnapWindow where
  identity : WindowIdentity
  state : Rect
  groupId : Nat
deriving DecidableEq

/-- A registered group: unique id plus the ordered list of member windows
(`SnapGroup`).  Members are stored as identities; the service's window list
resolves them (the handle scheme suggested by the spec's design notes). -/
structure SnapGroup where
  id : Nat
  members : List WindowIdentity
deriving DecidableEq

/-- `eSnapValidity`. -/
inductive Validity where
  | VALID
  | INVALID
deriving DecidableEq

/-- A candidate merge produced by the resolver (`SnapTarget`). -/
structure SnapTarget where
  groupId : Nat
  activeWindow : WindowIdentity
  snapOffset : Point
  halfSize : Option Point
  validity : Validity
deriving DecidableEq

/-- The whole mutable state owned by `SnapService`: the registries
`this.windows` and `this.groups`, a counter supplying fresh group ids, the
ids of groups whose five notification handlers are currently attached to
the service, and the `SnapView` state (`none` is the empty/reset view). -/
structure ServiceState where
  windows : List SnapWindow
  groups : List SnapGroup
  nextGroupId : Nat
  wired : List Nat
  view : Option (Nat × Option SnapTarget)
deriving DecidableEq

/-- `UNDOCK_MOVE_SCALE` from SnapService.ts. -/
def UNDOCK_MOVE_SCALE : ℚ := 30

/-- First window whose identity matches, mirroring
`this.windows.find(w => target.uuid === identity.uuid && target.name === identity.name)`. -/
def findWindow : List SnapWindow → WindowIdentity → Option SnapWindow
  | [], _ => none
  | w :: rest, wid => if w.identity = wid then some w else findWindow rest wid

/-- First group with the given id (group object references in the source
become id lookups in the handle scheme). -/
def findGroup : List SnapGroup → Nat → Option SnapGroup
  | [], _ => none
  | g :: rest, gid => if g.id = gid then some g else findGroup rest gid

/-- Apply `f` to the window(s) with identity `wid` (identities are unique,
so this is the mutation of the one matching window object). -/
def updateWindow : List SnapWindow → WindowIdentity → (SnapWindow → SnapWindow) → List SnapWindow
  | [], _, _ => []
  | w :: rest, wid, f =>
      (if w.identity = wid then f w else w) :: updateWindow rest wid f

/-- Remove the member `wid` from a member list (the detach half of
`setGroup`; with unique identities this is the source's single splice). -/
def removeAllW : List WindowIdentity → WindowIdentity → List WindowIdentity
  | [], _ => []
  | m :: rest, wid =>
      if m = wid then removeAllW rest wid else m :: removeAllW rest wid

/-- Remove the group(s) with id `gid` from the registry (the source's
single splice, under unique group ids). -/
def eraseGroupId : List SnapGroup → Nat → List SnapGroup
  | [], _ => []
  | g :: rest, gid =>
      if g.id = gid then eraseGroupId rest gid else g :: eraseGroupId rest gid

/-- Remove an id from the wired-handler set. -/
def eraseNat : List Nat → Nat → List Nat
  | [], _ => []
  | n :: rest, m => if n = m then eraseNat rest m else n :: eraseNat rest m

/-- How one group changes when the member `wid` moves from the group with
id `oldGid` to the group with id `newGid`: the old group loses the member,
the new group gains it at the end, any other group is untouched. -/
def moveMemberFn (wid : WindowIdentity) (oldGid newGid : Nat) (g : SnapGroup) : SnapGroup :=
  let ms := if g.id = oldGid then removeAllW g.members wid else g.members
  if g.id = newGid then ⟨g.id, ms ++ [wid]⟩ else ⟨g.id, ms⟩

/-- Move the member `wid` out of the group with id `oldGid` and append it to
the member list of the group with id `newGid` (the structural half of
`setGroup`). -/
def moveMember (groups : List SnapGroup) (wid : WindowIdentity) (oldGid newGid : Nat) :
    List SnapGroup :=
  groups.map (moveMemberFn wid oldGid newGid)

/-- Embeds `SnapService.addGroup`: create a new (empty) group, wire its five
notification handlers to the service, push it onto `this.groups`, and
return it.  Returns the new state together with the new group's id. -/
def addGroup (s : ServiceState) : ServiceState × Nat :=
  ({ s with
      groups := s.groups ++ [⟨s.nextGroupId, []⟩],
      wired := s.wired ++ [s.nextGroupId],
      nextGroupId := s.nextGroupId + 1 },
   s.nextGroupId)

/-- Embeds `SnapService.removeGroup`: "Can only remove empty groups" — the
group is removed from `this.groups`, and its five handlers detached, only
when it is registered and has zero windows. -/
def removeGroup (s : ServiceState) (gid : Nat) : ServiceState :=
  match findGroup s.groups gid with
  | none => s
  | some g =>
      if g.members.length = 0 then
        { s with groups := eraseGroupId s.groups gid, wired := eraseNat s.wired gid }
      else s

/-- Embeds `SnapService.onWindowRemovedFromGroup`: when the group a window
just left has become empty it is removed at once ("Empty groups are not
allowed").  The subsequent `sendWindowRemovedMessage` only emits the
external signal and is not part of the registry state. -/
def onWindowRemovedFromGroup (s : ServiceState) (gid : Nat) : ServiceState :=
  match findGroup s.groups gid with
  | none => s
  | some g => if g.members.length = 0 then removeGroup s gid else s

/-- Modelled from the spec: `SnapWindow.setGroup` (SnapWindow.ts is not
among the sources).  "detaches from the current group (triggering that
group's window-removed notification) and attaches to `newGroup`
(triggering its window-added notification); if `offset`/`halfSize` given,
the window's rectangle is translated/resized atomically as part of the same
operation".  The window-removed notification reaches the service's
`onWindowRemovedFromGroup` handler synchronously, which prunes the old
group if it has been emptied. -/
def setGroup (s : ServiceState) (wid : WindowIdentity) (newGid : Nat)
    (offset : Option Point) (halfSize : Option Point) : ServiceState :=
  match findWindow s.windows wid with
  | none => s
  | some w =>
      let oldGid := w.groupId
      let s1 : ServiceState :=
        { s with
            windows := updateWindow s.windows wid fun w2 =>
              { w2 with
                  groupId := newGid,
                  state :=
                    ⟨(match offset with
                      | some o => ⟨w2.state.center.x + o.x, w2.state.center.y + o.y⟩
                      | none => w2.state.center),
                     halfSize.getD w2.state.halfSize⟩ },
            groups := moveMember s.groups wid oldGid newGid }
      onWindowRemovedFromGroup s1 oldGid

/-- Modelled from the spec: `SnapWindow.offsetBy` "applies a pure
translation to the window's current rectangle" (SnapWindow.ts is not among
the sources). -/
def offsetBy (s : ServiceState) (wid : WindowIdentity) (delta : Point) : ServiceState :=
  { s with
      windows := updateWindow s.windows wid fun w =>
        { w with
            state := ⟨⟨w.state.center.x + delta.x, w.state.center.y + delta.y⟩,
                      w.state.halfSize⟩ } }

/-- One accumulation step of `SnapService.calculateOffset`: the window being
unsnapped is excluded, and a grouped window contributes exactly when
`distance.minAbs === 0 && distance.min < 0`; the contribution is
`Math.sign((center difference) * Math.abs(perpendicular gap))` on each
axis, exactly as parenthesised in the source. -/
def offsetContribution (s : ServiceState) (w : SnapWindow) (acc : Point)
    (mid : WindowIdentity) : Point :=
  if mid = w.identity then acc
  else
    match findWindow s.windows mid with
    | none => acc
    | some o =>
        let d := RectUtils.distance w.state o.state
        if d.minAbs = 0 ∧ d.min < 0 then
          ⟨acc.x + jsign ((w.state.center.x - o.state.center.x) * |d.y|),
           acc.y + jsign ((w.state.center.y - o.state.center.y) * |d.x|)⟩
        else acc

/-- Embeds `SnapService.calculateOffset`: fold the contribution of every
other window of `window.getGroup()` onto a zero total offset. -/
def calculateOffset (s : ServiceState) (w : SnapWindow) : Point :=
  match findGroup s.groups w.groupId with
  | none => ⟨0, 0⟩
  | some g => g.members.foldl (offsetContribution s w) ⟨0, 0⟩

/-- Embeds `SnapService.undock`: if the identity is registered, compute the
repulsion offset, move the window into a brand-new group, and nudge it by
`Math.sign(offset.c ? offset.c : 1) * UNDOCK_MOVE_SCALE` on each axis (a
zero — falsy — component defaults to `1`, hence to a positive nudge).  The
final `group.onModified` emission reaches `validateGroup`, whose body is an
unimplemented TODO (SERVICE-130) and changes no state. -/
def undock (s : ServiceState) (target : WindowIdentity) : ServiceState :=
  match findWindow s.windows target with
  | none => s
  | some w =>
      let offset := calculateOffset s w
      let pr := addGroup s
      let s2 := setGroup pr.1 w.identity pr.2 none none
      offsetBy s2 w.identity
        ⟨jsign (if offset.x = 0 then 1 else offset.x) * UNDOCK_MOVE_SCALE,
         jsign (if offset.y = 0 then 1 else offset.y) * UNDOCK_MOVE_SCALE⟩

/-- First registered group containing a window with the given identity,
mirroring the `this.groups.find(g => g.windows.filter(...).length > 0)`
lookup in `explodeGroup`. -/
def groupContaining : List SnapGroup → WindowIdentity → Option SnapGroup
  | [], _ => none
  | g :: rest, wid =>
      if 0 < (g.members.filter fun m => decide (m = wid)).length then some g
      else groupContaining rest wid

/-- One iteration of the second loop of `SnapService.explodeGroup`: the
window is moved into a brand-new group and nudged by its previously
calculated offset, `Math.sign(offset.c) * 0.5 * UNDOCK_MOVE_SCALE` per
axis. -/
def explodeStep (st : ServiceState) (p : WindowIdentity × Point) : ServiceState :=
  let pr := addGroup st
  let s2 := setGroup pr.1 p.1 pr.2 none none
  offsetBy s2 p.1
    ⟨jsign p.2.x * (1 / 2) * UNDOCK_MOVE_SCALE,
     jsign p.2.y * (1 / 2) * UNDOCK_MOVE_SCALE⟩

/-- Embeds `SnapService.explodeGroup`: find the group containing the target
window; if it has more than one window, first determine the offset of every
window ("before modifying any window state"), then detach each window into
a fresh group and apply its precomputed offset. -/
def explodeGroup (s : ServiceState) (targetWindow : WindowIdentity) : ServiceState :=
  match groupContaining s.groups targetWindow with
  | none => s
  | some group =>
      if 1 < group.members.length then
        let windows := group.members
        let offsets : List Point := windows.map fun mid =>
          match findWindow s.windows mid with
          | some w => calculateOffset s w
          | none => ⟨0, 0⟩
        (windows.zip offsets).foldl explodeStep s
      else s

/-- One iteration of the commit loop of `SnapService.applySnapTarget`: the
anchor window (`window === snapTarget.activeWindow`), when the target
carries a `halfSize`, is reassigned with both offset and halfSize; every
other window is reassigned with the offset alone. -/
def applyStep (t : SnapTarget) (st : ServiceState) (wid : WindowIdentity) : ServiceState :=
  if wid = t.activeWindow ∧ t.halfSize.isSome then
    setGroup st wid t.groupId (some t.snapOffset) t.halfSize
  else
    setGroup st wid t.groupId (some t.snapOffset) none

/-- Embeds `SnapService.applySnapTarget` (the `onCommit` handler).  The
resolver (Resolver.ts is not among the sources) is passed as an oracle
function, and `foo` embeds the untyped `(window as Window & {foo}).foo`
debug flag read from the host page's global object.  On a VALID target with
the flag unset, every window of the active group's current member list is
reassigned to the target group; the residual-group check afterwards only
logs a warning.  In every case the view is reset at the end
(`this.view.update(null, null)`). -/
def applySnapTarget (resolver : List SnapGroup → SnapGroup → Option SnapTarget)
    (foo : Bool) (s : ServiceState) (activeGroup : SnapGroup) : ServiceState :=
  let snapTarget := resolver s.groups activeGroup
  let s1 :=
    match snapTarget with
    | some t =>
        if t.validity = Validity.VALID ∧ foo = false then
          activeGroup.members.foldl (applyStep t) s
        else s
    | none => s
  { s1 with view := none }

/-! ## Derived notions used by the statements -/

/-- The fresh singleton groups created while exploding the member list `R`,
in creation order, starting at group id `n`. -/
def singles : Nat → List WindowIdentity → List SnapGroup
  | _, [] => []
  | n, r :: rest => ⟨n, [r]⟩ :: singles (n + 1) rest

/-- Every group registered in the service is non-empty (the spec's headline
invariant about the registry). -/
def NEall (s : ServiceState) : Prop := ∀ g ∈ s.groups, g.members ≠ []

/-- Well-formedness of the registry between public operations: group ids
are unique and below the fresh-id counter, window identities are unique,
all groups are non-empty with duplicate-free member lists, and every member
resolves to a registered window whose back-reference points back at the
group. -/
def WF (s : ServiceState) : Prop :=
  (s.groups.map SnapGroup.id).Nodup ∧
  (s.windows.map SnapWindow.identity).Nodup ∧
  (∀ g ∈ s.groups, g.id < s.nextGroupId) ∧
  NEall s ∧
  (∀ g ∈ s.groups, ∀ mid ∈ g.members, ∃ w ∈ s.windows, w.identity = mid ∧ w.groupId = g.id) ∧
  (∀ g ∈ s.groups, g.members.Nodup)

/-- Shape of the active group in mid-explode: with `R` the members not yet
detached, the group keeps its id and exactly the members `R`, and is gone
from the registry the moment `R` is empty. -/
def egpart (gId : Nat) (R : List WindowIdentity) (g : SnapGroup) : Option SnapGroup :=
  if g.id = gId then (if R = [] then none else some ⟨gId, R⟩) else some g

/-- Shape of the registry in mid-commit (`applySnapTarget`): the active
group (id `aid`) keeps the members `R` not yet moved and is gone once
emptied; the target group (id `tid`, original members `M`) has received the
already-moved members `acc`; every other group is untouched. -/
def apart (aid tid : Nat) (M R acc : List WindowIdentity) (g : SnapGroup) : Option SnapGroup :=
  if g.id = aid then (if R = [] then none else some ⟨aid, R⟩)
  else if g.id = tid then some ⟨tid, M ++ acc⟩
  else some g

/-- Modelled from the spec: the repulsion contribution as the spec's words
describe it — "accumulate onto the offset's x component the sign of
`(w.center.x - o.center.x)` weighted by the magnitude of overlap on y, and
symmetrically accumulate the y component weighted by overlap on x" — i.e.
the sign of the center difference multiplied by the perpendicular overlap
magnitude.  This is the formula claimed by C4, to be compared with the
source's `offsetContribution`. -/
def offsetContributionSpec (s : ServiceState) (w : SnapWindow) (acc : Point)
    (mid : WindowIdentity) : Point :=
  if mid = w.identity then acc
  else
    match findWindow s.windows mid with
    | none => acc
    | some o =>
        let d := RectUtils.distance w.state o.state
        if d.minAbs = 0 ∧ d.min < 0 then
          ⟨acc.x + jsign (w.state.center.x - o.state.center.x) * |d.y|,
           acc.y + jsign (w.state.center.y - o.state.center.y) * |d.x|⟩
        else acc

/-- `calculateOffset` as the spec's words describe it (see
`offsetContributionSpec`). -/
def calculateOffsetSpec (s : ServiceState) (w : SnapWindow) : Point :=
  match findGroup s.groups w.groupId with
  | none => ⟨0, 0⟩
  | some g => g.members.foldl (offsetContributionSpec s w) ⟨0, 0⟩

/-- The repulsion contribution the source actually computes, rephrased: a
qualifying neighbour contributes the bare sign of the center difference on
an axis when the perpendicular overlap magnitude is nonzero, and nothing
when that magnitude is zero — the overlap magnitude sits inside
`Math.sign`, so only its vanishing matters, never its size. -/
def offsetContributionAmended (s : ServiceState) (w : SnapWindow) (acc : Point)
    (mid : WindowIdentity) : Point :=
  if mid = w.identity then acc
  else
    match findWindow s.windows mid with
    | none => acc
    | some o =>
        let d := RectUtils.distance w.state o.state
        if d.minAbs = 0 ∧ d.min < 0 then
          ⟨acc.x + (if |d.y| = 0 then 0 else jsign (w.state.center.x - o.state.center.x)),
           acc.y + (if |d.x| = 0 then 0 else jsign (w.state.center.y - o.state.center.y))⟩
        else acc

/-- `calculateOffset` rephrased per `offsetContributionAmended`. -/
def calculateOffsetAmended (s : ServiceState) (w : SnapWindow) : Point :=
  match findGroup s.groups w.groupId with
  | none => ⟨0, 0⟩
  | some g => g.members.foldl (offsetContributionAmended s w) ⟨0, 0⟩

/-! ## The preview component (`Preview.ts`) -/

/-- A previewable target (`SnapTarget | TabTarget` keyed by `eTargetType`):
a snap target carries the anchor window's current state, the snap offset
and an optional resize; a tab target carries its drop area. -/
inductive PreviewableTarget where
  | snap (activeState : Rect) (offset : Point) (halfSize : Option Point) (valid : Bool)
  | tab (dropArea : Rect) (valid : Bool)
deriving DecidableEq

/-- Embeds `Preview.generatePreviewRect`: for a snap target the preview
halfSize is `target.halfSize || prevHalfSize` and the center is the anchor
center plus the target offset plus, per axis, `(halfSize - prevHalfSize)`;
for a tab target the rectangle is the drop area. -/
def generatePreviewRect : PreviewableTarget → Rect
  | PreviewableTarget.snap activeState offset halfSize _ =>
      let prevHalfSize := activeState.halfSize
      let hs := halfSize.getD prevHalfSize
      ⟨⟨activeState.center.x + offset.x + (hs.x - prevHalfSize.x),
        activeState.center.y + offset.y + (hs.y - prevHalfSize.y)⟩,
       hs⟩
  | PreviewableTarget.tab dropArea _ => dropArea

/-- Embeds the bounds computation of `Preview.positionPreview`
(`setBounds(center.x - halfSize.x, center.y - halfSize.y, halfSize.x * 2,
halfSize.y * 2)`), the step of `Preview.show` that places the preview
window at the generated rectangle. -/
def positionPreviewBounds (t : PreviewableTarget) : ℚ × ℚ × ℚ × ℚ :=
  let r := generatePreviewRect t
  (r.center.x - r.halfSize.x, r.center.y - r.halfSize.y,
   r.halfSize.x * 2, r.halfSize.y * 2)

/-- The rectangle-and-group update `setGroup` applies to the reassigned
window: new back-reference, optional translation, optional resize. -/
def setGroupFn (newGid : Nat) (offset halfSize : Option Point) (w2 : SnapWindow) : SnapWindow :=
  { w2 with
      groupId := newGid,
      state :=
        ⟨(match offset with
          | some o => ⟨w2.state.center.x + o.x, w2.state.center.y + o.y⟩
          | none => w2.state.center),
         halfSize.getD w2.state.halfSize⟩ }

/-- The rectangle update `offsetBy` applies: a pure translation. -/
def offsetByFn (delta : Point) (w : SnapWindow) : SnapWindow :=
  { w with
      state := ⟨⟨w.state.center.x + delta.x, w.state.center.y + delta.y⟩,
                w.state.halfSize⟩ }

/-- Resolve a member identity to its registered window record (with a
throwaway default for the impossible missing case). -/
def resolveW (s : ServiceState) (mid : WindowIdentity) : SnapWindow :=
  (findWindow s.windows mid).getD ⟨mid, ⟨⟨0, 0⟩, ⟨0, 0⟩⟩, 0⟩

/-- The window update a commit step applies: reassign to the target group,
translate by the snap offset, and resize only the anchor window (and only
when the target carries a halfSize). -/
def applyFn (t : SnapTarget) (r : WindowIdentity) : SnapWindow → SnapWindow :=
  setGroupFn t.groupId (some t.snapOffset)
    (if r = t.activeWindow ∧ t.halfSize.isSome then t.halfSize else none)

/-! ## Concrete registry fixtures used by the witnesses -/

/-- Identity fixture. -/
def idA : WindowIdentity := ⟨"a", "w"⟩

/-- Identity fixture. -/
def idB : WindowIdentity := ⟨"b", "w"⟩

/-- Identity fixture. -/
def idC : WindowIdentity := ⟨"c", "w"⟩

/-- A window at the origin, half-extent 10×10, in group 1. -/
def wA : SnapWindow := ⟨idA, ⟨⟨0, 0⟩, ⟨10, 10⟩⟩, 1⟩

/-- A window exactly edge-to-edge to the right of `wA`, in group 1. -/
def wB : SnapWindow := ⟨idB, ⟨⟨20, 0⟩, ⟨10, 10⟩⟩, 1⟩

/-- A window edge-to-edge to the right of `wA` but shifted up by 5, so the
vertical overlap magnitude with `wA` is 15, not 20. -/
def wBshift : SnapWindow := ⟨idB, ⟨⟨20, 5⟩, ⟨10, 10⟩⟩, 1⟩

/-- A lone window far away, in group 3. -/
def wC : SnapWindow := ⟨idC, ⟨⟨100, 100⟩, ⟨5, 5⟩⟩, 3⟩

/-- Registry with one two-window group (edge-to-edge pair). -/
def sPair : ServiceState := ⟨[wA, wB], [⟨1, [idA, idB]⟩], 2, [1], none⟩

/-- Registry with one two-window group whose second window is `wBshift`. -/
def sTouch : ServiceState := ⟨[wA, wBshift], [⟨1, [idA, idB]⟩], 2, [1], none⟩

/-- Registry with a single singleton group. -/
def sSingle : ServiceState := ⟨[wC], [⟨3, [idC]⟩], 4, [3], none⟩

/-- Registry with a two-window group (ids 1) and a singleton group (id 3),
used by the commit witnesses. -/
def sThree : ServiceState := ⟨[wA, wB, wC], [⟨1, [idA, idB]⟩, ⟨3, [idC]⟩], 4, [1, 3], none⟩

/-- A VALID snap target pointing the pair group at the singleton group 3,
with `wA` as anchor and a resize. -/
def tValid : SnapTarget := ⟨3, idA, ⟨2, 3⟩, some ⟨8, 8⟩, Validity.VALID⟩

/-- A resolver oracle that always returns `tValid` (the resolver itself is
external to the sources; commits are conditional on its answer). -/
def resolverConst : List SnapGroup → SnapGroup → Option SnapTarget := fun _ _ => some tValid

/-- A resolver oracle that never finds a target. -/
def resolverNone : List SnapGroup → SnapGroup → Option SnapTarget := fun _ _ => none

/-- A registry holding one (illegally) empty group, exercising the
empty-group pruning handler. -/
def sEmptyG : ServiceState := ⟨[], [⟨7, []⟩], 8, [7], none⟩

/-- A window at the origin grouped (id 5) with a distant, non-touching
partner — its repulsion offset is zero on both axes. -/
def wFar1 : SnapWindow := ⟨idA, ⟨⟨0, 0⟩, ⟨10, 10⟩⟩, 5⟩

/-- The distant partner of `wFar1`. -/
def wFar2 : SnapWindow := ⟨idB, ⟨⟨100, 0⟩, ⟨10, 10⟩⟩, 5⟩

/-- Registry with one two-window group whose members do not touch. -/
def sFar : ServiceState := ⟨[wFar1, wFar2], [⟨5, [idA, idB]⟩], 6, [5], none⟩

/-! ## Basic lemmas about the registry helpers -/

theorem findWindow_some {l : List SnapWindow} {wid : WindowIdentity} {w : SnapWindow}
    (h : findWindow l wid = some w) : w.identity = wid ∧ w ∈ l := by
  induction l with
  | nil => simp [findWindow] at h
  | cons a rest ih =>
      by_cases ha : a.identity = wid
      · simp [findWindow, ha] at h
        subst h
        exact ⟨ha, List.mem_cons_self _ _⟩
      · simp [findWindow, ha] at h
        rcases ih h with ⟨h1, h2⟩
        exact ⟨h1, List.mem_cons_of_mem _ h2⟩

theorem findWindow_eq_none {l : List SnapWindow} {wid : WindowIdentity} :
    findWindow l wid = none ↔ ∀ w ∈ l, w.identity ≠ wid := by
  induction l with
  | nil => simp [findWindow]
  | cons a rest ih =>
      by_cases ha : a.identity = wid
      · simp [findWindow, ha]
      · simp [findWindow, ha, ih]

theorem findWindow_of_mem {l : List SnapWindow} {w : SnapWindow} {wid : WindowIdentity}
    (hmem : w ∈ l) (hid : w.identity = wid)
    (hnd : (l.map SnapWindow.identity).Nodup) : findWindow l wid = some w := by
  induction l with
  | nil => simp at hmem
  | cons a rest ih =>
      simp only [List.map_cons, List.nodup_cons] at hnd
      rcases List.mem_cons.mp hmem with h | h
      · subst h
        simp [findWindow, hid]
      · have hane : a.identity ≠ wid := by
          intro he
          exact hnd.1 (he ▸ hid ▸ List.mem_map_of_mem SnapWindow.identity h)
        simp [findWindow, hane]
        exact ih h hnd.2

theorem updateWindow_map_identity {l : List SnapWindow} {wid : WindowIdentity}
    {f : SnapWindow → SnapWindow} (hf : ∀ x, (f x).identity = x.identity) :
    (updateWindow l wid f).map SnapWindow.identity = l.map SnapWindow.identity := by
  induction l with
  | nil => rfl
  | cons a rest ih =>
      by_cases ha : a.identity = wid
      · simp [updateWindow, ha, hf, ih]
      · simp [updateWindow, ha, ih]

theorem findWindow_updateWindow_self {l : List SnapWindow} {wid : WindowIdentity}
    {f : SnapWindow → SnapWindow} (hf : ∀ x, (f x).identity = x.identity) :
    findWindow (updateWindow l wid f) wid = (findWindow l wid).map f := by
  induction l with
  | nil => rfl
  | cons a rest ih =>
      by_cases ha : a.identity = wid
      · simp [updateWindow, findWindow, ha, hf]
      · simp [updateWindow, findWindow, ha, ih]

theorem findWindow_updateWindow_ne {l : List SnapWindow} {wid wid2 : WindowIdentity}
    {f : SnapWindow → SnapWindow} (hf : ∀ x, (f x).identity = x.identity)
    (hne : wid2 ≠ wid) :
    findWindow (updateWindow l wid f) wid2 = findWindow l wid2 := by
  induction l with
  | nil => rfl
  | cons a rest ih =>
      have h3 : wid ≠ wid2 := fun he => hne he.symm
      by_cases ha : a.identity = wid
      · have h1 : (f a).identity ≠ wid2 := by
          rw [hf, ha]
          exact h3
        have h2 : a.identity ≠ wid2 := by
          rw [ha]
          exact h3
        simp [updateWindow, findWindow, ha, h1, h2, h3, ih]
      · by_cases ha2 : a.identity = wid2
        · simp [updateWindow, findWindow, ha, ha2, hne]
        · simp [updateWindow, findWindow, ha, ha2, ih]

theorem updateWindow_comp {l : List SnapWindow} {wid : WindowIdentity}
    {f g : SnapWindow → SnapWindow} (hf : ∀ x, (f x).identity = x.identity) :
    updateWindow (updateWindow l wid f) wid g = updateWindow l wid (fun w => g (f w)) := by
  induction l with
  | nil => rfl
  | cons a rest ih =>
      by_cases ha : a.identity = wid
      · simp [updateWindow, ha, hf, ih]
      · simp [updateWindow, ha, ih]

theorem exists_findWindow_of_mem_ids {l : List SnapWindow} {wid : WindowIdentity}
    (h : wid ∈ l.map SnapWindow.identity) :
    ∃ w, findWindow l wid = some w ∧ w.identity = wid := by
  induction l with
  | nil => simp at h
  | cons a rest ih =>
      by_cases ha : a.identity = wid
      · exact ⟨a, by simp [findWindow, ha], ha⟩
      · simp only [List.map_cons, List.mem_cons] at h
        rcases h with h | h
        · exact absurd h.symm ha
        · rcases ih h with ⟨w, h1, h2⟩
          exact ⟨w, by simp [findWindow, ha, h1], h2⟩

theorem findGroup_some {l : List SnapGroup} {gid : Nat} {g : SnapGroup}
    (h : findGroup l gid = some g) : g.id = gid ∧ g ∈ l := by
  induction l with
  | nil => simp [findGroup] at h
  | cons a rest ih =>
      by_cases ha : a.id = gid
      · simp [findGroup, ha] at h
        subst h
        exact ⟨ha, List.mem_cons_self _ _⟩
      · simp [findGroup, ha] at h
        rcases ih h with ⟨h1, h2⟩
        exact ⟨h1, List.mem_cons_of_mem _ h2⟩

theorem findGroup_eq_none {l : List SnapGroup} {gid : Nat} :
    findGroup l gid = none ↔ ∀ g ∈ l, g.id ≠ gid := by
  induction l with
  | nil => simp [findGroup]
  | cons a rest ih =>
      by_cases ha : a.id = gid
      · simp [findGroup, ha]
      · simp [findGroup, ha, ih]

theorem findGroup_of_mem {l : List SnapGroup} {g : SnapGroup} {gid : Nat}
    (hmem : g ∈ l) (hid : g.id = gid)
    (hnd : (l.map SnapGroup.id).Nodup) : findGroup l gid = some g := by
  induction l with
  | nil => simp at hmem
  | cons a rest ih =>
      simp only [List.map_cons, List.nodup_cons] at hnd
      rcases List.mem_cons.mp hmem with h | h
      · subst h
        simp [findGroup, hid]
      · have hane : a.id ≠ gid := by
          intro he
          exact hnd.1 (he ▸ hid ▸ List.mem_map_of_mem SnapGroup.id h)
        simp [findGroup, hane]
        exact ih h hnd.2

theorem findGroup_append {l1 l2 : List SnapGroup} {gid : Nat} :
    findGroup (l1 ++ l2) gid =
      match findGroup l1 gid with
      | some g => some g
      | none => findGroup l2 gid := by
  induction l1 with
  | nil => simp [findGroup]
  | cons a rest ih =>
      by_cases ha : a.id = gid
      · simp [findGroup, ha]
      · simp [findGroup, ha, ih]

theorem findGroup_filterMap {l : List SnapGroup} {F : SnapGroup → Option SnapGroup}
    (hid : ∀ g g2, F g = some g2 → g2.id = g.id)
    (hnd : (l.map SnapGroup.id).Nodup) {gid : Nat} :
    findGroup (l.filterMap F) gid = (findGroup l gid).bind F := by
  induction l with
  | nil => simp [findGroup]
  | cons a rest ih =>
      simp only [List.map_cons, List.nodup_cons] at hnd
      by_cases ha : a.id = gid
      · cases hFa : F a with
        | none =>
            have hrest : findGroup rest gid = none := by
              rw [findGroup_eq_none]
              intro g hg he
              refine hnd.1 ?_
              rw [ha, ← he]
              exact List.mem_map_of_mem SnapGroup.id hg
            simp [List.filterMap_cons, hFa, findGroup, ha, ih hnd.2, hrest]
        | some b =>
            have hb : b.id = gid := (hid a b hFa).trans ha
            simp [List.filterMap_cons, hFa, findGroup, ha, hb]
      · cases hFa : F a with
        | none => simp [List.filterMap_cons, hFa, findGroup, ha, ih hnd.2]
        | some b =>
            have hb : b.id ≠ gid := fun he => ha ((hid a b hFa) ▸ he)
            simp [List.filterMap_cons, hFa, findGroup, ha, hb, ih hnd.2]

theorem filterMap_eq_self_of {α : Type} {l : List α} {f : α → Option α}
    (h : ∀ a ∈ l, f a = some a) : l.filterMap f = l := by
  induction l with
  | nil => rfl
  | cons a rest ih =>
      rw [List.filterMap_cons, h a (List.mem_cons_self _ _),
        ih fun b hb => h b (List.mem_cons_of_mem _ hb)]

theorem map_eq_self_of {α : Type} {l : List α} {f : α → α}
    (h : ∀ a ∈ l, f a = a) : l.map f = l := by
  induction l with
  | nil => rfl
  | cons a rest ih =>
      rw [List.map_cons, h a (List.mem_cons_self _ _),
        ih fun b hb => h b (List.mem_cons_of_mem _ hb)]

theorem map_filterMap_comm {α β γ : Type} {l : List α} {f : α → Option β} {g : β → γ} :
    (l.filterMap f).map g = l.filterMap fun a => (f a).map g := by
  induction l with
  | nil => rfl
  | cons a rest ih =>
      cases hFa : f a with
      | none => simp [List.filterMap_cons, hFa, ih]
      | some b => simp [List.filterMap_cons, hFa, ih]

theorem eraseGroupId_append {l1 l2 : List SnapGroup} {gid : Nat} :
    eraseGroupId (l1 ++ l2) gid = eraseGroupId l1 gid ++ eraseGroupId l2 gid := by
  induction l1 with
  | nil => rfl
  | cons a rest ih =>
      by_cases ha : a.id = gid
      · simp [eraseGroupId, ha, ih]
      · simp [eraseGroupId, ha, ih]

theorem eraseGroupId_eq_self {l : List SnapGroup} {gid : Nat}
    (h : ∀ g ∈ l, g.id ≠ gid) : eraseGroupId l gid = l := by
  induction l with
  | nil => rfl
  | cons a rest ih =>
      rw [eraseGroupId, if_neg (h a (List.mem_cons_self _ _)),
        ih fun b hb => h b (List.mem_cons_of_mem _ hb)]

theorem eraseGroupId_filterMap {l : List SnapGroup} {F : SnapGroup → Option SnapGroup} {gid : Nat} :
    eraseGroupId (l.filterMap F) gid =
      l.filterMap fun a =>
        match F a with
        | some b => if b.id = gid then none else some b
        | none => none := by
  induction l with
  | nil => rfl
  | cons a rest ih =>
      cases hFa : F a with
      | none => simp [List.filterMap_cons, hFa, ih]
      | some b =>
          by_cases hb : b.id = gid
          · simp [List.filterMap_cons, hFa, eraseGroupId, hb, ih]
          · simp [List.filterMap_cons, hFa, eraseGroupId, hb, ih]

theorem mem_eraseGroupId {l : List SnapGroup} {gid : Nat} {g : SnapGroup}
    (h : g ∈ eraseGroupId l gid) : g ∈ l ∧ g.id ≠ gid := by
  induction l with
  | nil => simp [eraseGroupId] at h
  | cons a rest ih =>
      by_cases ha : a.id = gid
      · rw [eraseGroupId, if_pos ha] at h
        rcases ih h with ⟨h1, h2⟩
        exact ⟨List.mem_cons_of_mem _ h1, h2⟩
      · rw [eraseGroupId, if_neg ha] at h
        rcases List.mem_cons.mp h with h | h
        · exact ⟨h ▸ List.mem_cons_self _ _, h ▸ ha⟩
        · rcases ih h with ⟨h1, h2⟩
          exact ⟨List.mem_cons_of_mem _ h1, h2⟩

theorem not_mem_eraseNat {l : List Nat} {m : Nat} : m ∉ eraseNat l m := by
  induction l with
  | nil => simp [eraseNat]
  | cons a rest ih =>
      by_cases ha : a = m
      · rw [eraseNat, if_pos ha]
        exact ih
      · rw [eraseNat, if_neg ha]
        intro h
        rcases List.mem_cons.mp h with h | h
        · exact ha h.symm
        · exact ih h

theorem removeAllW_eq_self {l : List WindowIdentity} {wid : WindowIdentity}
    (h : wid ∉ l) : removeAllW l wid = l := by
  induction l with
  | nil => rfl
  | cons a rest ih =>
      have ha : a ≠ wid := fun he => h (he ▸ List.mem_cons_self _ _)
      rw [removeAllW, if_neg ha, ih fun hm => h (List.mem_cons_of_mem _ hm)]

theorem removeAllW_cons_self {l : List WindowIdentity} {wid : WindowIdentity}
    (h : wid ∉ l) : removeAllW (wid :: l) wid = l := by
  rw [removeAllW, if_pos rfl, removeAllW_eq_self h]

/-! ## Lemmas about `jsign` -/

theorem jsign_eq_one_of_pos {a : ℚ} (h : 0 < a) : jsign a = 1 := by
  simp [jsign, h, not_lt.mpr (le_of_lt h)]

theorem jsign_eq_neg_one_of_neg {a : ℚ} (h : a < 0) : jsign a = -1 := by
  simp [jsign, h]

theorem jsign_zero : jsign 0 = 0 := by simp [jsign]

theorem jsign_one : jsign 1 = 1 := jsign_eq_one_of_pos one_pos

theorem jsign_mul (a b : ℚ) : jsign (a * b) = jsign a * jsign b := by
  rcases lt_trichotomy a 0 with ha | ha | ha
  · rcases lt_trichotomy b 0 with hb | hb | hb
    · rw [jsign_eq_one_of_pos (mul_pos_of_neg_of_neg ha hb),
        jsign_eq_neg_one_of_neg ha, jsign_eq_neg_one_of_neg hb]
      norm_num
    · rw [hb, mul_zero, jsign_zero]
      simp
    · rw [jsign_eq_neg_one_of_neg (mul_neg_of_neg_of_pos ha hb),
        jsign_eq_neg_one_of_neg ha, jsign_eq_one_of_pos hb]
      norm_num
  · rw [ha, zero_mul, jsign_zero]
    simp
  · rcases lt_trichotomy b 0 with hb | hb | hb
    · rw [jsign_eq_neg_one_of_neg (mul_neg_of_pos_of_neg ha hb),
        jsign_eq_one_of_pos ha, jsign_eq_neg_one_of_neg hb]
      norm_num
    · rw [hb, mul_zero, jsign_zero]
      simp
    · rw [jsign_eq_one_of_pos (mul_pos ha hb),
        jsign_eq_one_of_pos ha, jsign_eq_one_of_pos hb]
      norm_num

/-! ## State plumbing lemmas -/

theorem removeGroup_windows (s : ServiceState) (gid : Nat) :
    (removeGroup s gid).windows = s.windows := by
  unfold removeGroup
  cases findGroup s.groups gid with
  | none => rfl
  | some g => by_cases h : g.members.length = 0 <;> simp [h]

theorem removeGroup_nextGroupId (s : ServiceState) (gid : Nat) :
    (removeGroup s gid).nextGroupId = s.nextGroupId := by
  unfold removeGroup
  cases findGroup s.groups gid with
  | none => rfl
  | some g => by_cases h : g.members.length = 0 <;> simp [h]

theorem removeGroup_view (s : ServiceState) (gid : Nat) :
    (removeGroup s gid).view = s.view := by
  unfold removeGroup
  cases findGroup s.groups gid with
  | none => rfl
  | some g => by_cases h : g.members.length = 0 <;> simp [h]

theorem onWindowRemovedFromGroup_windows (s : ServiceState) (gid : Nat) :
    (onWindowRemovedFromGroup s gid).windows = s.windows := by
  unfold onWindowRemovedFromGroup
  cases findGroup s.groups gid with
  | none => rfl
  | some g =>
      by_cases h : g.members.length = 0
      · simp [h, removeGroup_windows]
      · simp [h]

theorem onWindowRemovedFromGroup_nextGroupId (s : ServiceState) (gid : Nat) :
    (onWindowRemovedFromGroup s gid).nextGroupId = s.nextGroupId := by
  unfold onWindowRemovedFromGroup
  cases findGroup s.groups gid with
  | none => rfl
  | some g =>
      by_cases h : g.members.length = 0
      · simp [h, removeGroup_nextGroupId]
      · simp [h]

theorem onWindowRemovedFromGroup_view (s : ServiceState) (gid : Nat) :
    (onWindowRemovedFromGroup s gid).view = s.view := by
  unfold onWindowRemovedFromGroup
  cases findGroup s.groups gid with
  | none => rfl
  | some g =>
      by_cases h : g.members.length = 0
      · simp [h, removeGroup_view]
      · simp [h]

theorem setGroup_eq_of_found {s : ServiceState} {wid : WindowIdentity} {w : SnapWindow}
    (newGid : Nat) (offset halfSize : Option Point)
    (h : findWindow s.windows wid = some w) :
    setGroup s wid newGid offset halfSize =
      onWindowRemovedFromGroup
        { s with
            windows := updateWindow s.windows wid (setGroupFn newGid offset halfSize),
            groups := moveMember s.groups wid w.groupId newGid }
        w.groupId := by
  unfold setGroup
  rw [h]
  rfl

theorem setGroupFn_identity (newGid : Nat) (offset halfSize : Option Point) (w : SnapWindow) :
    (setGroupFn newGid offset halfSize w).identity = w.identity := rfl

theorem offsetByFn_identity (delta : Point) (w : SnapWindow) :
    (offsetByFn delta w).identity = w.identity := rfl

theorem offsetBy_def (s : ServiceState) (wid : WindowIdentity) (delta : Point) :
    offsetBy s wid delta = { s with windows := updateWindow s.windows wid (offsetByFn delta) } := rfl

theorem setGroup_windows_of_found {s : ServiceState} {wid : WindowIdentity} {w : SnapWindow}
    (newGid : Nat) (offset halfSize : Option Point)
    (h : findWindow s.windows wid = some w) :
    (setGroup s wid newGid offset halfSize).windows =
      updateWindow s.windows wid (setGroupFn newGid offset halfSize) := by
  rw [setGroup_eq_of_found newGid offset halfSize h, onWindowRemovedFromGroup_windows]

theorem setGroup_nextGroupId (s : ServiceState) (wid : WindowIdentity)
    (newGid : Nat) (offset halfSize : Option Point) :
    (setGroup s wid newGid offset halfSize).nextGroupId = s.nextGroupId := by
  unfold setGroup
  cases findWindow s.windows wid with
  | none => rfl
  | some w => rw [onWindowRemovedFromGroup_nextGroupId]

theorem setGroup_view (s : ServiceState) (wid : WindowIdentity)
    (newGid : Nat) (offset halfSize : Option Point) :
    (setGroup s wid newGid offset halfSize).view = s.view := by
  unfold setGroup
  cases findWindow s.windows wid with
  | none => rfl
  | some w => rw [onWindowRemovedFromGroup_view]

theorem jsign_mul_abs (a b : ℚ) : jsign (a * |b|) = if |b| = 0 then 0 else jsign a := by
  rw [jsign_mul]
  by_cases hb : |b| = 0
  · simp [hb, jsign_zero]
  · have h0 : 0 < |b| := lt_of_le_of_ne (abs_nonneg b) (Ne.symm hb)
    simp [hb, jsign_eq_one_of_pos h0]

theorem offsetContribution_eq_amended (s : ServiceState) (w : SnapWindow) :
    offsetContribution s w = offsetContributionAmended s w := by
  funext acc mid
  by_cases hmid : mid = w.identity
  · simp [offsetContribution, offsetContributionAmended, hmid]
  · cases hfw : findWindow s.windows mid with
    | none => simp [offsetContribution, offsetContributionAmended, hmid, hfw]
    | some o =>
        by_cases hc : (RectUtils.distance w.state o.state).minAbs = 0 ∧
            (RectUtils.distance w.state o.state).min < 0
        · simp [offsetContribution, offsetContributionAmended, hmid, hfw, hc, jsign_mul_abs]
        · simp [offsetContribution, offsetContributionAmended, hmid, hfw, hc]

/-! ## Claims -/

/-- C4 (counterexample): at a concrete pair of edge-touching windows with
vertical overlap magnitude 15, the source's `calculateOffset` yields
`(-1, 0)` — the bare sign of the whole product — whereas the spec's claimed
"sign of the center difference weighted (multiplied) by the overlap
magnitude" yields `(-15, 0)`; the claim as stated is false of the code. -/
theorem calculateOffset_not_weighted_counterexample :
    calculateOffset sTouch wA = ⟨-1, 0⟩ ∧
    calculateOffsetSpec sTouch wA = ⟨-15, 0⟩ ∧
    calculateOffset sTouch wA ≠ calculateOffsetSpec sTouch wA := by
  have hab : ("a" : String) ≠ "b" := by decide
  have hba : ("b" : String) ≠ "a" := by decide
  have h1 : calculateOffset sTouch wA = ⟨-1, 0⟩ := by
    simp [calculateOffset, offsetContribution, sTouch, wA, wBshift, idA, idB,
      findGroup, findWindow, RectUtils.distance, MeasureResult.minAbs, MeasureResult.min,
      jsign, hab, hba]
    norm_num [abs, inf_eq_min, min_def, sup_eq_max, max_def]
  have h2 : calculateOffsetSpec sTouch wA = ⟨-15, 0⟩ := by
    simp [calculateOffsetSpec, offsetContributionSpec, sTouch, wA, wBshift, idA, idB,
      findGroup, findWindow, RectUtils.distance, MeasureResult.minAbs, MeasureResult.min,
      jsign, hab, hba]
    norm_num [abs, inf_eq_min, min_def, sup_eq_max, max_def]
  refine ⟨h1, h2, ?_⟩
  rw [h1, h2]
  intro h
  have hx := congrArg Point.x h
  norm_num at hx

/-- C4 (amended): for every window `w` and every other window `o` of its
group satisfying the repulsion condition (`minAbs = 0` and `min < 0`),
`calculateOffset` adds to the offset's x component the sign of
`(w.center.x - o.center.x)` when the overlap magnitude on y is nonzero and
`0` when that magnitude is zero — the overlap magnitude sits inside the
sign, so only its vanishing matters, never its size — and symmetrically
for the y component with the overlap on x. -/
theorem calculateOffset_sign_of_product (s : ServiceState) (w : SnapWindow) :
    calculateOffset s w = calculateOffsetAmended s w := by
  unfold calculateOffset calculateOffsetAmended
  rw [offsetContribution_eq_amended]

/-- C6: `undock` on an identity not present in the registry, and
`explodeGroup` on an identity in no registered group or whose group has at
most one window, return with the entire service state unchanged. -/
theorem unknown_identity_noop :
    (∀ s wid, findWindow s.windows wid = none → undock s wid = s) ∧
    (∀ s wid, groupContaining s.groups wid = none → explodeGroup s wid = s) ∧
    (∀ s wid g, groupContaining s.groups wid = some g → g.members.length ≤ 1 →
      explodeGroup s wid = s) := by
  refine ⟨?_, ?_, ?_⟩
  · intro s wid h
    simp [undock, h]
  · intro s wid h
    simp [explodeGroup, h]
  · intro s wid g h hle
    simp [explodeGroup, h, not_lt.mpr hle]

/-- C6 (witness): the three no-op branches at concrete registries: an
unknown identity undocked and exploded in the two-window registry, and an
explode aimed at a singleton group. -/
theorem unknown_identity_noop_witness :
    undock sPair idC = sPair ∧ explodeGroup sPair idC = sPair ∧
    explodeGroup sSingle idC = sSingle :=
  ⟨unknown_identity_noop.1 sPair idC (by decide),
   unknown_identity_noop.2.1 sPair idC (by decide),
   unknown_identity_noop.2.2 sSingle idC ⟨3, [idC]⟩ (by decide) (by decide)⟩

/-- C8: a commit whose re-queried snap target is absent, or whose validity
is not VALID, changes nothing but the preview view, which is reset to the
empty state; and every commit — valid or not — ends with the view reset. -/
theorem commit_without_valid_target_noop :
    (∀ resolver foo s ag,
      (resolver s.groups ag = none ∨
       ∃ t, resolver s.groups ag = some t ∧ t.validity ≠ Validity.VALID) →
      applySnapTarget resolver foo s ag = { s with view := none }) ∧
    (∀ resolver foo s ag, (applySnapTarget resolver foo s ag).view = none) := by
  constructor
  · intro resolver foo s ag h
    rcases h with h | ⟨t, ht, hv⟩
    · simp [applySnapTarget, h]
    · have hcond : ¬(t.validity = Validity.VALID ∧ foo = false) := fun hc => hv hc.1
      simp [applySnapTarget, ht, hcond]
  · intro resolver foo s ag
    unfold applySnapTarget
    cases resolver s.groups ag with
    | none => rfl
    | some t => by_cases h : t.validity = Validity.VALID ∧ foo = false <;> simp [h]

/-- C8 (witness): a commit with a resolver that finds no target leaves the
two-window registry intact apart from the view reset. -/
theorem commit_without_valid_target_noop_witness :
    applySnapTarget resolverNone false sPair ⟨1, [idA, idB]⟩ = { sPair with view := none } :=
  commit_without_valid_target_noop.1 resolverNone false sPair ⟨1, [idA, idB]⟩
    (Or.inl rfl)

/-- C9: for every snap-type target handed to the preview, the generated
preview rectangle's halfSize is the target's `halfSize` when present and
the anchor window's current halfSize otherwise, and its center is the
anchor's current center plus the target offset plus, per axis, the
difference between the preview halfSize and the anchor's current halfSize
(the rectangle `Preview.show` then positions the preview window at). -/
theorem preview_rect_from_snap_target (a : Rect) (off : Point) (hs : Option Point) (v : Bool) :
    (generatePreviewRect (PreviewableTarget.snap a off hs v)).halfSize = hs.getD a.halfSize ∧
    (∀ h, hs = some h →
      (generatePreviewRect (PreviewableTarget.snap a off hs v)).halfSize = h) ∧
    (hs = none →
      (generatePreviewRect (PreviewableTarget.snap a off hs v)).halfSize = a.halfSize) ∧
    (generatePreviewRect (PreviewableTarget.snap a off hs v)).center.x =
      a.center.x + off.x +
        ((generatePreviewRect (PreviewableTarget.snap a off hs v)).halfSize.x - a.halfSize.x) ∧
    (generatePreviewRect (PreviewableTarget.snap a off hs v)).center.y =
      a.center.y + off.y +
        ((generatePreviewRect (PreviewableTarget.snap a off hs v)).halfSize.y - a.halfSize.y) := by
  cases hs with
  | none => simp [generatePreviewRect]
  | some h => simp [generatePreviewRect]

/-- C9 (witness): the resize branch at a concrete target — a 7×7 target
halfSize replaces the anchor's 10×10 one. -/
theorem preview_rect_from_snap_target_witness :
    (generatePreviewRect
      (PreviewableTarget.snap ⟨⟨0, 0⟩, ⟨10, 10⟩⟩ ⟨5, 5⟩ (some ⟨7, 7⟩) true)).halfSize =
      (⟨7, 7⟩ : Point) :=
  (preview_rect_from_snap_target ⟨⟨0, 0⟩, ⟨10, 10⟩⟩ ⟨5, 5⟩ (some ⟨7, 7⟩) true).2.1
    ⟨7, 7⟩ rfl

/-- Per-axis facts about the undock nudge `Math.sign(c ? c : 1) * UNDOCK_MOVE_SCALE`:
its magnitude is always the full scale, its sign follows `c`, and a zero
`c` defaults to the positive direction. -/
theorem undock_delta_props (q : ℚ) :
    |jsign (if q = 0 then 1 else q) * UNDOCK_MOVE_SCALE| = UNDOCK_MOVE_SCALE ∧
    (q = 0 → jsign (if q = 0 then 1 else q) * UNDOCK_MOVE_SCALE = UNDOCK_MOVE_SCALE) ∧
    (0 < q → jsign (if q = 0 then 1 else q) * UNDOCK_MOVE_SCALE = UNDOCK_MOVE_SCALE) ∧
    (q < 0 → jsign (if q = 0 then 1 else q) * UNDOCK_MOVE_SCALE = -UNDOCK_MOVE_SCALE) := by
  rcases lt_trichotomy q 0 with hq | hq | hq
  · have hne : q ≠ 0 := ne_of_lt hq
    rw [if_neg hne, jsign_eq_neg_one_of_neg hq]
    refine ⟨by norm_num [UNDOCK_MOVE_SCALE], fun h => absurd h hne, ?_, fun _ => by norm_num⟩
    intro h
    exact absurd (lt_trans hq h) (lt_irrefl q)
  · rw [if_pos hq, jsign_one]
    refine ⟨by norm_num [UNDOCK_MOVE_SCALE], fun _ => by norm_num, fun _ => by norm_num, ?_⟩
    intro h
    rw [hq] at h
    exact absurd h (lt_irrefl 0)
  · have hne : q ≠ 0 := ne_of_gt hq
    rw [if_neg hne, jsign_eq_one_of_pos hq]
    refine ⟨by norm_num [UNDOCK_MOVE_SCALE], fun h => absurd h hne, fun _ => by norm_num, ?_⟩
    intro h
    exact absurd (lt_trans h hq) (lt_irrefl q)

/-- C5: for every registered window, `undock` displaces it by exactly
`UNDOCK_MOVE_SCALE = 30` in magnitude on each axis, in the direction of the
sign of the computed repulsion offset, a zero offset component defaulting
to the positive direction — so the undocked window moves by a nonzero
amount on both axes. -/
theorem undock_nudges_by_move_scale (s : ServiceState) (target : WindowIdentity) (w : SnapWindow)
    (h : findWindow s.windows target = some w) :
    ∃ w2, findWindow (undock s target).windows target = some w2 ∧
      w2.state.halfSize = w.state.halfSize ∧
      w2.state.center.x = w.state.center.x +
        jsign (if (calculateOffset s w).x = 0 then 1 else (calculateOffset s w).x) *
          UNDOCK_MOVE_SCALE ∧
      w2.state.center.y = w.state.center.y +
        jsign (if (calculateOffset s w).y = 0 then 1 else (calculateOffset s w).y) *
          UNDOCK_MOVE_SCALE ∧
      |w2.state.center.x - w.state.center.x| = UNDOCK_MOVE_SCALE ∧
      |w2.state.center.y - w.state.center.y| = UNDOCK_MOVE_SCALE ∧
      ((calculateOffset s w).x = 0 → w2.state.center.x = w.state.center.x + UNDOCK_MOVE_SCALE) ∧
      (0 < (calculateOffset s w).x → w2.state.center.x = w.state.center.x + UNDOCK_MOVE_SCALE) ∧
      ((calculateOffset s w).x < 0 → w2.state.center.x = w.state.center.x - UNDOCK_MOVE_SCALE) ∧
      ((calculateOffset s w).y = 0 → w2.state.center.y = w.state.center.y + UNDOCK_MOVE_SCALE) ∧
      (0 < (calculateOffset s w).y → w2.state.center.y = w.state.center.y + UNDOCK_MOVE_SCALE) ∧
      ((calculateOffset s w).y < 0 → w2.state.center.y = w.state.center.y - UNDOCK_MOVE_SCALE) := by
  have hid : w.identity = target := (findWindow_some h).1
  have hfw : findWindow s.windows w.identity = some w := by rw [hid]; exact h
  have hwin : (undock s target).windows =
      updateWindow s.windows w.identity
        (fun w2 => offsetByFn
          ⟨jsign (if (calculateOffset s w).x = 0 then 1 else (calculateOffset s w).x) *
             UNDOCK_MOVE_SCALE,
           jsign (if (calculateOffset s w).y = 0 then 1 else (calculateOffset s w).y) *
             UNDOCK_MOVE_SCALE⟩
          (setGroupFn (addGroup s).2 none none w2)) := by
    simp only [undock, h]
    rw [offsetBy_def]
    have := setGroup_windows_of_found (s := (addGroup s).1) (w := w)
      (addGroup s).2 none none hfw
    rw [this]
    exact updateWindow_comp fun x => rfl
  have hfind : findWindow (undock s target).windows target =
      some (offsetByFn
        ⟨jsign (if (calculateOffset s w).x = 0 then 1 else (calculateOffset s w).x) *
           UNDOCK_MOVE_SCALE,
         jsign (if (calculateOffset s w).y = 0 then 1 else (calculateOffset s w).y) *
           UNDOCK_MOVE_SCALE⟩
        (setGroupFn (addGroup s).2 none none w)) := by
    rw [hwin, ← hid]
    refine Eq.trans (findWindow_updateWindow_self ?_) ?_
    · exact fun x => rfl
    · rw [hfw]
      rfl
  refine ⟨_, hfind, rfl, rfl, rfl, ?_, ?_, ?_, ?_, ?_, ?_, ?_, ?_⟩
  · simp only [offsetByFn, setGroupFn]
    rw [add_sub_cancel_left]
    exact (undock_delta_props (calculateOffset s w).x).1
  · simp only [offsetByFn, setGroupFn]
    rw [add_sub_cancel_left]
    exact (undock_delta_props (calculateOffset s w).y).1
  · intro hz
    simp only [offsetByFn, setGroupFn]
    rw [(undock_delta_props (calculateOffset s w).x).2.1 hz]
  · intro hp
    simp only [offsetByFn, setGroupFn]
    rw [(undock_delta_props (calculateOffset s w).x).2.2.1 hp]
  · intro hn
    simp only [offsetByFn, setGroupFn]
    rw [(undock_delta_props (calculateOffset s w).x).2.2.2 hn]
    ring
  · intro hz
    simp only [offsetByFn, setGroupFn]
    rw [(undock_delta_props (calculateOffset s w).y).2.1 hz]
  · intro hp
    simp only [offsetByFn, setGroupFn]
    rw [(undock_delta_props (calculateOffset s w).y).2.2.1 hp]
  · intro hn
    simp only [offsetByFn, setGroupFn]
    rw [(undock_delta_props (calculateOffset s w).y).2.2.2 hn]
    ring

/-- C5 (witness): undocking the left window of the edge-to-edge pair moves
it by exactly the move scale on the x axis. -/
theorem undock_nudges_by_move_scale_witness :
    |((findWindow (undock sPair idA).windows idA).getD wA).state.center.x -
      wA.state.center.x| = UNDOCK_MOVE_SCALE := by
  obtain ⟨w2, hfind, hhs, hcx, hcy, hax, hay, rest⟩ :=
    undock_nudges_by_move_scale sPair idA wA (by decide)
  rw [hfind]
  simpa using hax

/-! ## Preservation of the non-empty-groups invariant -/

theorem moveMember_map_id (groups : List SnapGroup) (wid : WindowIdentity) (oldGid newGid : Nat) :
    (moveMember groups wid oldGid newGid).map SnapGroup.id = groups.map SnapGroup.id := by
  induction groups with
  | nil => rfl
  | cons a rest ih =>
      simp only [moveMember, List.map_cons] at ih ⊢
      rw [ih]
      congr 1
      by_cases h : a.id = newGid <;> simp [moveMemberFn, h]

theorem eraseGroupId_sublist (l : List SnapGroup) (gid : Nat) :
    (eraseGroupId l gid).Sublist l := by
  induction l with
  | nil => simp [eraseGroupId]
  | cons a rest ih =>
      by_cases ha : a.id = gid
      · rw [eraseGroupId, if_pos ha]
        exact ih.trans (List.sublist_cons_self a rest)
      · rw [eraseGroupId, if_neg ha]
        exact ih.cons₂ a

theorem setGroup_windows_ids (s : ServiceState) (wid : WindowIdentity) (newGid : Nat)
    (offset halfSize : Option Point) :
    (setGroup s wid newGid offset halfSize).windows.map SnapWindow.identity =
      s.windows.map SnapWindow.identity := by
  unfold setGroup
  cases findWindow s.windows wid with
  | none => rfl
  | some w =>
      rw [onWindowRemovedFromGroup_windows]
      exact updateWindow_map_identity fun x => rfl

theorem offsetBy_windows_ids (s : ServiceState) (wid : WindowIdentity) (delta : Point) :
    (offsetBy s wid delta).windows.map SnapWindow.identity =
      s.windows.map SnapWindow.identity := by
  rw [offsetBy_def]
  exact updateWindow_map_identity fun x => rfl

theorem groupContaining_some {l : List SnapGroup} {wid : WindowIdentity} {g : SnapGroup}
    (h : groupContaining l wid = some g) : g ∈ l ∧ wid ∈ g.members := by
  induction l with
  | nil => simp [groupContaining] at h
  | cons a rest ih =>
      by_cases ha : 0 < (a.members.filter fun m => decide (m = wid)).length
      · rw [groupContaining, if_pos ha] at h
        obtain rfl : a = g := Option.some.inj h
        rcases List.exists_mem_of_ne_nil _ (List.length_pos.mp ha) with ⟨m, hm⟩
        have := List.mem_filter.mp hm
        refine ⟨List.mem_cons_self _ _, ?_⟩
        have hmw : m = wid := of_decide_eq_true this.2
        exact hmw ▸ this.1
      · rw [groupContaining, if_neg ha] at h
        rcases ih h with ⟨h1, h2⟩
        exact ⟨List.mem_cons_of_mem _ h1, h2⟩

/-- Transfer an id bound across lists with equal id images. -/
theorem forall_id_lt_of_map_eq {l1 l2 : List SnapGroup} {N : Nat}
    (h : l1.map SnapGroup.id = l2.map SnapGroup.id) (hb : ∀ g ∈ l2, g.id < N) :
    ∀ g ∈ l1, g.id < N := by
  intro g hg
  have hmem : g.id ∈ l1.map SnapGroup.id := List.mem_map_of_mem _ hg
  rw [h] at hmem
  rcases List.mem_map.mp hmem with ⟨g2, hg2, he⟩
  rw [← he]
  exact hb g2 hg2

/-- A reassignment can never leave an empty group registered: the group the
window joins receives it, the group it left is pruned the moment it becomes
empty, and every other group is untouched.  Stated robustly: any state with
unique, bounded group ids in which every group is non-empty — except
possibly the group being joined, provided the window exists — maps to a
state with unique, bounded ids and no empty group at all. -/
theorem setGroup_preserves_NE {s : ServiceState} (wid : WindowIdentity) (newGid : Nat)
    (offset halfSize : Option Point)
    (hnd : (s.groups.map SnapGroup.id).Nodup)
    (hb : ∀ g ∈ s.groups, g.id < s.nextGroupId)
    (hne : ∀ g ∈ s.groups, g.members ≠ [] ∨
      (g.id = newGid ∧ ∃ w2, findWindow s.windows wid = some w2)) :
    ((setGroup s wid newGid offset halfSize).groups.map SnapGroup.id).Nodup ∧
    (∀ g ∈ (setGroup s wid newGid offset halfSize).groups,
      g.id < (setGroup s wid newGid offset halfSize).nextGroupId) ∧
    NEall (setGroup s wid newGid offset halfSize) := by
  cases hw : findWindow s.windows wid with
  | none =>
      have hres : setGroup s wid newGid offset halfSize = s := by
        unfold setGroup
        rw [hw]
      rw [hres]
      refine ⟨hnd, hb, ?_⟩
      intro g hg
      rcases hne g hg with h | ⟨_, w2, hww⟩
      · exact h
      · rw [hw] at hww
        exact absurd hww (by simp)
  | some w =>
      rw [setGroup_eq_of_found newGid offset halfSize hw]
      have hg1 : ({ s with
          windows := updateWindow s.windows wid (setGroupFn newGid offset halfSize),
          groups := moveMember s.groups wid w.groupId newGid } : ServiceState).groups =
          moveMember s.groups wid w.groupId newGid := rfl
      generalize hs1 : ({ s with
          windows := updateWindow s.windows wid (setGroupFn newGid offset halfSize),
          groups := moveMember s.groups wid w.groupId newGid } : ServiceState) = s1
      have hgroups1 : s1.groups = moveMember s.groups wid w.groupId newGid := by
        rw [← hs1]
      have hnext1 : s1.nextGroupId = s.nextGroupId := by rw [← hs1]
      have hnd1 : (s1.groups.map SnapGroup.id).Nodup := by
        rw [hgroups1, moveMember_map_id]
        exact hnd
      have hb1 : ∀ g ∈ s1.groups, g.id < s1.nextGroupId := by
        rw [hnext1]
        exact forall_id_lt_of_map_eq (by rw [hgroups1, moveMember_map_id]) hb
      have hshape : ∀ g1 ∈ s1.groups, g1.members ≠ [] ∨ g1.id = w.groupId := by
        rw [hgroups1]
        intro g1 hg1mem
        rcases List.mem_map.mp hg1mem with ⟨g0, hg0, he⟩
        by_cases hn : g0.id = newGid
        · left
          rw [← he]
          simp [moveMemberFn, hn]
        · by_cases ho : g0.id = w.groupId
          · right
            rw [← he]
            simp only [moveMemberFn, if_neg hn]
            exact ho
          · left
            rw [← he]
            rcases hne g0 hg0 with h | ⟨he2, _⟩
            · simp [moveMemberFn, hn, ho]
              exact h
            · exact absurd he2 hn
      clear hs1 hg1 hnd hb hne hw
      cases hfg : findGroup s1.groups w.groupId with
      | none =>
          simp only [onWindowRemovedFromGroup, hfg]
          refine ⟨hnd1, hb1, ?_⟩
          intro g1 hg1mem
          rcases hshape g1 hg1mem with h | h
          · exact h
          · exact absurd h (findGroup_eq_none.mp hfg g1 hg1mem)
      | some gf =>
          by_cases hlen : gf.members.length = 0
          · simp only [onWindowRemovedFromGroup, hfg, hlen, if_pos]
            simp only [removeGroup, hfg, hlen, if_pos]
            refine ⟨?_, ?_, ?_⟩
            · exact ((eraseGroupId_sublist s1.groups w.groupId).map SnapGroup.id).nodup hnd1
            · intro g1 hg1mem
              exact hb1 g1 (mem_eraseGroupId hg1mem).1
            · intro g1 hg1mem
              rcases mem_eraseGroupId hg1mem with ⟨hmem, hne2⟩
              rcases hshape g1 hmem with h | h
              · exact h
              · exact absurd h hne2
          · simp only [onWindowRemovedFromGroup, hfg, hlen, if_neg, if_false]
            refine ⟨hnd1, hb1, ?_⟩
            intro g1 hg1mem
            rcases hshape g1 hg1mem with h | h
            · exact h
            · have hgf := findGroup_some hfg
              have : g1 = gf :=
                List.inj_on_of_nodup_map hnd1 hg1mem hgf.2 (by rw [h, hgf.1])
              rw [this]
              intro hnil
              rw [hnil] at hlen
              exact hlen rfl

/-- Field-level description of `addGroup`: the registry gains one fresh
empty group whose id is the old counter value; ids stay unique and
bounded. -/
theorem addGroup_facts (s : ServiceState)
    (hnd : (s.groups.map SnapGroup.id).Nodup)
    (hb : ∀ g ∈ s.groups, g.id < s.nextGroupId) :
    ((addGroup s).1.groups.map SnapGroup.id).Nodup ∧
    (∀ g ∈ (addGroup s).1.groups, g.id < (addGroup s).1.nextGroupId) ∧
    (addGroup s).2 = s.nextGroupId ∧
    (addGroup s).1.groups = s.groups ++ [(⟨s.nextGroupId, []⟩ : SnapGroup)] ∧
    (addGroup s).1.windows = s.windows ∧
    (addGroup s).1.nextGroupId = s.nextGroupId + 1 := by
  refine ⟨?_, ?_, rfl, rfl, rfl, rfl⟩
  · show ((s.groups ++ [(⟨s.nextGroupId, []⟩ : SnapGroup)]).map SnapGroup.id).Nodup
    rw [List.map_append, List.nodup_append]
    refine ⟨hnd, List.nodup_singleton _, ?_⟩
    intro x hx hx2
    simp only [List.map_cons, List.map_nil, List.mem_singleton] at hx2
    subst hx2
    rcases List.mem_map.mp hx with ⟨g, hg, he⟩
    exact absurd (he ▸ hb g hg) (lt_irrefl _)
  · intro g hgmem
    show g.id < s.nextGroupId + 1
    rcases List.mem_append.mp hgmem with h | h
    · exact lt_trans (hb g h) (Nat.lt_succ_self _)
    · simp only [List.mem_singleton] at h
      rw [h]
      exact Nat.lt_succ_self _

theorem explode_fold_NE (L : List (WindowIdentity × Point)) :
    ∀ st : ServiceState,
      (st.groups.map SnapGroup.id).Nodup →
      (∀ g ∈ st.groups, g.id < st.nextGroupId) →
      NEall st →
      (∀ p ∈ L, p.1 ∈ st.windows.map SnapWindow.identity) →
      ((L.foldl explodeStep st).groups.map SnapGroup.id).Nodup ∧
      (∀ g ∈ (L.foldl explodeStep st).groups, g.id < (L.foldl explodeStep st).nextGroupId) ∧
      NEall (L.foldl explodeStep st) := by
  induction L with
  | nil =>
      intro st h1 h2 h3 _
      exact ⟨h1, h2, h3⟩
  | cons p Lrest ih =>
      intro st h1 h2 h3 h4
      rw [List.foldl_cons]
      obtain ⟨a1, a2, a3, a4, a5, a6⟩ := addGroup_facts st h1 h2
      have hne1 : ∀ g ∈ (addGroup st).1.groups, g.members ≠ [] ∨
          (g.id = (addGroup st).2 ∧
           ∃ w2, findWindow (addGroup st).1.windows p.1 = some w2) := by
        intro g hg
        rw [a4] at hg
        rcases List.mem_append.mp hg with h | h
        · exact Or.inl (h3 g h)
        · simp only [List.mem_singleton] at h
          refine Or.inr ⟨by rw [h, a3], ?_⟩
          rw [a5]
          rcases exists_findWindow_of_mem_ids (h4 p (List.mem_cons_self p Lrest)) with ⟨w2, hw2, _⟩
          exact ⟨w2, hw2⟩
      obtain ⟨n2, b2, ne2⟩ :=
        setGroup_preserves_NE p.1 (addGroup st).2 none none a1 a2 hne1
      have hids : (explodeStep st p).windows.map SnapWindow.identity =
          st.windows.map SnapWindow.identity := by
        show (offsetBy (setGroup (addGroup st).1 p.1 (addGroup st).2 none none) p.1
          ⟨jsign p.2.x * (1 / 2) * UNDOCK_MOVE_SCALE,
           jsign p.2.y * (1 / 2) * UNDOCK_MOVE_SCALE⟩).windows.map SnapWindow.identity =
          st.windows.map SnapWindow.identity
        rw [offsetBy_windows_ids, setGroup_windows_ids]
        exact congrArg (List.map SnapWindow.identity) a5
      refine ih (explodeStep st p) n2 b2 ne2 ?_
      intro p2 hp2
      rw [hids]
      exact h4 p2 (List.mem_cons_of_mem p hp2)

theorem apply_fold_NE (t : SnapTarget) (R : List WindowIdentity) :
    ∀ st : ServiceState,
      (st.groups.map SnapGroup.id).Nodup →
      (∀ g ∈ st.groups, g.id < st.nextGroupId) →
      NEall st →
      ((R.foldl (applyStep t) st).groups.map SnapGroup.id).Nodup ∧
      (∀ g ∈ (R.foldl (applyStep t) st).groups,
        g.id < (R.foldl (applyStep t) st).nextGroupId) ∧
      NEall (R.foldl (applyStep t) st) := by
  induction R with
  | nil =>
      intro st h1 h2 h3
      exact ⟨h1, h2, h3⟩
  | cons r rest ih =>
      intro st h1 h2 h3
      rw [List.foldl_cons]
      have htrip : ((applyStep t st r).groups.map SnapGroup.id).Nodup ∧
          (∀ g ∈ (applyStep t st r).groups, g.id < (applyStep t st r).nextGroupId) ∧
          NEall (applyStep t st r) := by
        unfold applyStep
        by_cases hcond : r = t.activeWindow ∧ t.halfSize.isSome
        · rw [if_pos hcond]
          exact setGroup_preserves_NE r t.groupId (some t.snapOffset) t.halfSize h1 h2
            fun g hg => Or.inl (h3 g hg)
        · rw [if_neg hcond]
          exact setGroup_preserves_NE r t.groupId (some t.snapOffset) none h1 h2
            fun g hg => Or.inl (h3 g hg)
      exact ih (applyStep t st r) htrip.1 htrip.2.1 htrip.2.2

/-- `undock` preserves the non-empty-groups invariant of a well-formed
registry: the fresh group is filled by the undocked window and the old
group is pruned if it empties. -/
theorem undock_NE {s : ServiceState} (hWF : WF s) (wid : WindowIdentity) :
    NEall (undock s wid) := by
  obtain ⟨hnd, hwnd, hb, hne, hres, hmnd⟩ := hWF
  cases hw : findWindow s.windows wid with
  | none =>
      have heq : undock s wid = s := by
        unfold undock
        rw [hw]
      rw [heq]
      exact hne
  | some w =>
      have hid : w.identity = wid := (findWindow_some hw).1
      obtain ⟨a1, a2, a3, a4, a5, a6⟩ := addGroup_facts s hnd hb
      have hueq : undock s wid =
          offsetBy (setGroup (addGroup s).1 w.identity (addGroup s).2 none none) w.identity
            ⟨jsign (if (calculateOffset s w).x = 0 then 1 else (calculateOffset s w).x) *
               UNDOCK_MOVE_SCALE,
             jsign (if (calculateOffset s w).y = 0 then 1 else (calculateOffset s w).y) *
               UNDOCK_MOVE_SCALE⟩ := by
        simp only [undock, hw]
      have hne1 : ∀ g ∈ (addGroup s).1.groups, g.members ≠ [] ∨
          (g.id = (addGroup s).2 ∧
           ∃ w2, findWindow (addGroup s).1.windows w.identity = some w2) := by
        intro g hg
        rw [a4] at hg
        rcases List.mem_append.mp hg with h | h
        · exact Or.inl (hne g h)
        · simp only [List.mem_singleton] at h
          refine Or.inr ⟨by rw [h, a3], ⟨w, ?_⟩⟩
          rw [a5, hid]
          exact hw
      obtain ⟨n2, b2, ne2⟩ :=
        setGroup_preserves_NE w.identity (addGroup s).2 none none a1 a2 hne1
      rw [hueq]
      exact ne2

/-- `explodeGroup` preserves the non-empty-groups invariant of a
well-formed registry. -/
theorem explode_NE {s : ServiceState} (hWF : WF s) (wid : WindowIdentity) :
    NEall (explodeGroup s wid) := by
  obtain ⟨hnd, hwnd, hb, hne, hres, hmnd⟩ := hWF
  cases hg : groupContaining s.groups wid with
  | none =>
      have heq : explodeGroup s wid = s := by
        unfold explodeGroup
        rw [hg]
      rw [heq]
      exact hne
  | some g =>
      by_cases hlen : 1 < g.members.length
      · have heq : explodeGroup s wid =
            (g.members.zip (g.members.map fun mid =>
              match findWindow s.windows mid with
              | some w => calculateOffset s w
              | none => ⟨0, 0⟩)).foldl explodeStep s := by
          simp only [explodeGroup, hg, if_pos hlen]
        rw [heq]
        refine (explode_fold_NE _ s hnd hb hne ?_).2.2
        intro p hp
        obtain ⟨p1, p2⟩ := p
        have hp1 : p1 ∈ g.members := (List.of_mem_zip hp).1
        rcases hres g (groupContaining_some hg).1 p1 hp1 with ⟨w2, hw2mem, hw2id, _⟩
        rw [← hw2id]
        exact List.mem_map_of_mem _ hw2mem
      · have heq : explodeGroup s wid = s := by
          simp only [explodeGroup, hg, if_neg hlen]
        rw [heq]
        exact hne

/-- `applySnapTarget` preserves the non-empty-groups invariant of a
well-formed registry, whatever target the resolver oracle produces. -/
theorem apply_NE {s : ServiceState} (hWF : WF s)
    (resolver : List SnapGroup → SnapGroup → Option SnapTarget) (foo : Bool)
    (ag : SnapGroup) : NEall (applySnapTarget resolver foo s ag) := by
  obtain ⟨hnd, hwnd, hb, hne, hres, hmnd⟩ := hWF
  unfold applySnapTarget
  cases ht : resolver s.groups ag with
  | none => exact fun g hgm => hne g hgm
  | some t =>
      by_cases hcond : t.validity = Validity.VALID ∧ foo = false
      · simp only [if_pos hcond]
        exact fun g hgm => (apply_fold_NE t ag.members s hnd hb hne).2.2 g hgm
      · simp only [if_neg hcond]
        exact fun g hgm => hne g hgm

/-- C1: a group registered in the service is never empty — `removeGroup`
refuses to remove a group that still has members; the window-removed
handler synchronously removes a group that has been left empty and
detaches its notification handlers; and each public operation (`undock`,
`explodeGroup`, `applySnapTarget`) maps a well-formed registry to one with
no empty group. -/
theorem snap_group_registry_never_empty :
    (∀ s gid g, findGroup s.groups gid = some g → g.members ≠ [] → removeGroup s gid = s) ∧
    (∀ s gid g, findGroup s.groups gid = some g → g.members = [] →
      (∀ g2 ∈ (onWindowRemovedFromGroup s gid).groups, g2.id ≠ gid) ∧
      gid ∉ (onWindowRemovedFromGroup s gid).wired) ∧
    (∀ s, WF s → ∀ wid, NEall (undock s wid) ∧ NEall (explodeGroup s wid)) ∧
    (∀ s, WF s → ∀ resolver foo ag, NEall (applySnapTarget resolver foo s ag)) := by
  refine ⟨?_, ?_, ?_, ?_⟩
  · intro s gid g h hnemp
    have hlen : ¬g.members.length = 0 := fun hc => hnemp (List.length_eq_zero.mp hc)
    unfold removeGroup
    rw [h]
    simp [hlen]
  · intro s gid g h hnil
    have hlen : g.members.length = 0 := by rw [hnil]; rfl
    have heq : onWindowRemovedFromGroup s gid =
        { s with groups := eraseGroupId s.groups gid, wired := eraseNat s.wired gid } := by
      unfold onWindowRemovedFromGroup removeGroup
      rw [h]
      simp [hlen]
    rw [heq]
    exact ⟨fun g2 hg2 => (mem_eraseGroupId hg2).2, not_mem_eraseNat⟩
  · intro s hWF wid
    exact ⟨undock_NE hWF wid, explode_NE hWF wid⟩
  · intro s hWF resolver foo ag
    exact apply_NE hWF resolver foo ag

/-- C1 (witness): the pieces at concrete registries — refusing to remove
the non-empty pair group, undocking and exploding from the pair registry,
committing the pair group onto the singleton registry, and pruning plus
unwiring a group already empty. -/
theorem snap_group_registry_never_empty_witness :
    removeGroup sPair 1 = sPair ∧
    NEall (undock sPair idA) ∧
    NEall (explodeGroup sPair idA) ∧
    NEall (applySnapTarget resolverConst false sThree ⟨1, [idA, idB]⟩) ∧
    7 ∉ (onWindowRemovedFromGroup sEmptyG 7).wired :=
  ⟨snap_group_registry_never_empty.1 sPair 1 ⟨1, [idA, idB]⟩ (by decide) (by decide),
   (snap_group_registry_never_empty.2.2.1 sPair (by unfold WF NEall; decide) idA).1,
   (snap_group_registry_never_empty.2.2.1 sPair (by unfold WF NEall; decide) idA).2,
   snap_group_registry_never_empty.2.2.2 sThree (by unfold WF NEall; decide) resolverConst false
     ⟨1, [idA, idB]⟩,
   (snap_group_registry_never_empty.2.1 sEmptyG 7 ⟨7, []⟩ (by decide) (by decide)).2⟩

theorem moveMemberFn_other {wid : WindowIdentity} {oldGid newGid : Nat} {g : SnapGroup}
    (ho : g.id ≠ oldGid) (hn : g.id ≠ newGid) : moveMemberFn wid oldGid newGid g = g := by
  simp [moveMemberFn, ho, hn]

theorem moveMemberFn_old {wid : WindowIdentity} {oldGid newGid : Nat} {g : SnapGroup}
    (ho : g.id = oldGid) (hn : g.id ≠ newGid) :
    moveMemberFn wid oldGid newGid g = ⟨g.id, removeAllW g.members wid⟩ := by
  have h2 : oldGid ≠ newGid := fun he => hn (ho.trans he)
  simp [moveMemberFn, ho, hn, h2]

theorem moveMemberFn_new {wid : WindowIdentity} {oldGid newGid : Nat} {g : SnapGroup}
    (ho : g.id ≠ oldGid) (hn : g.id = newGid) :
    moveMemberFn wid oldGid newGid g = ⟨g.id, g.members ++ [wid]⟩ := by
  have h2 : newGid ≠ oldGid := fun he => ho (hn.trans he)
  simp [moveMemberFn, ho, hn, h2]

theorem moveMember_append (l1 l2 : List SnapGroup) (wid : WindowIdentity) (o n : Nat) :
    moveMember (l1 ++ l2) wid o n = moveMember l1 wid o n ++ moveMember l2 wid o n :=
  List.map_append _ _ _

/-- One step of the explode loop, on a registry in mid-explode shape: the
head member leaves the active group (which is pruned if thereby emptied)
into a fresh singleton group appended at the end, and its window record
gets the new back-reference and the scaled nudge. -/
theorem explodeStep_shape (gId N : Nat) (r : WindowIdentity) (o : Point)
    (G0 S : List SnapGroup) (st : ServiceState) (Wr : SnapWindow) (R2 : List WindowIdentity)
    (hnd : (G0.map SnapGroup.id).Nodup)
    (hgmem : ∃ g0 ∈ G0, g0.id = gId)
    (hnext : st.nextGroupId = N)
    (hgroups : st.groups = G0.filterMap (egpart gId (r :: R2)) ++ S)
    (hbG : ∀ g ∈ G0, g.id < N)
    (hgid : gId < N)
    (hS : ∀ g ∈ S, g.id < N ∧ g.id ≠ gId)
    (hrR : r ∉ R2)
    (hfw : findWindow st.windows r = some Wr)
    (hWgid : Wr.groupId = gId) :
    (explodeStep st (r, o)).groups =
      G0.filterMap (egpart gId R2) ++ (S ++ [(⟨N, [r]⟩ : SnapGroup)]) ∧
    (explodeStep st (r, o)).nextGroupId = N + 1 ∧
    (explodeStep st (r, o)).windows =
      updateWindow st.windows r fun w2 =>
        offsetByFn ⟨jsign o.x * (1 / 2) * UNDOCK_MOVE_SCALE,
                    jsign o.y * (1 / 2) * UNDOCK_MOVE_SCALE⟩
          (setGroupFn N none none w2) := by
  have hNgid : N ≠ gId := (ne_of_lt hgid).symm
  have hstep : explodeStep st (r, o) =
      offsetBy (setGroup (addGroup st).1 r (addGroup st).2 none none) r
        ⟨jsign o.x * (1 / 2) * UNDOCK_MOVE_SCALE,
         jsign o.y * (1 / 2) * UNDOCK_MOVE_SCALE⟩ := rfl
  have hN2 : (addGroup st).2 = N := by rw [← hnext]; rfl
  have hfw1 : findWindow (addGroup st).1.windows r = some Wr := hfw
  have hsg := setGroup_eq_of_found (s := (addGroup st).1) (addGroup st).2 none none hfw1
  -- the groups list after the structural move
  have haddg : (addGroup st).1.groups =
      (G0.filterMap (egpart gId (r :: R2)) ++ S) ++ [(⟨N, []⟩ : SnapGroup)] := by
    show st.groups ++ [(⟨st.nextGroupId, []⟩ : SnapGroup)] = _
    rw [hgroups, hnext]
  have hmm : moveMember (addGroup st).1.groups r Wr.groupId (addGroup st).2 =
      G0.filterMap (fun g => if g.id = gId then some ⟨gId, R2⟩ else some g) ++
        (S ++ [(⟨N, [r]⟩ : SnapGroup)]) := by
    rw [haddg, hWgid, hN2, moveMember_append, moveMember_append]
    have hA : moveMember (G0.filterMap (egpart gId (r :: R2))) r gId N =
        G0.filterMap fun g => if g.id = gId then some ⟨gId, R2⟩ else some g := by
      show (G0.filterMap (egpart gId (r :: R2))).map (moveMemberFn r gId N) = _
      rw [map_filterMap_comm]
      refine List.filterMap_congr ?_
      intro g hg
      by_cases hgi : g.id = gId
      · have : egpart gId (r :: R2) g = some ⟨gId, r :: R2⟩ := by
          simp [egpart, hgi]
        rw [this, if_pos hgi]
        have hne2 : (⟨gId, r :: R2⟩ : SnapGroup).id ≠ N := (ne_of_lt hgid)
        show some (moveMemberFn r gId N ⟨gId, r :: R2⟩) = some ⟨gId, R2⟩
        rw [moveMemberFn_old rfl hne2, removeAllW_cons_self hrR]
      · have : egpart gId (r :: R2) g = some g := by
          simp [egpart, hgi]
        rw [this, if_neg hgi]
        show some (moveMemberFn r gId N g) = some g
        rw [moveMemberFn_other hgi (ne_of_lt (hbG g hg))]
    have hS2 : moveMember S r gId N = S := by
      show S.map (moveMemberFn r gId N) = S
      refine map_eq_self_of ?_
      intro g hg
      exact moveMemberFn_other (hS g hg).2 (ne_of_lt (hS g hg).1)
    have hc : moveMember [(⟨N, []⟩ : SnapGroup)] r gId N = [(⟨N, [r]⟩ : SnapGroup)] := by
      show [moveMemberFn r gId N ⟨N, []⟩] = _
      rw [moveMemberFn_new (g := (⟨N, []⟩ : SnapGroup)) hNgid rfl]
      rfl
    rw [hA, hS2, hc, List.append_assoc]
  -- the group lookup hitting the shrunk active group
  have hfind : findGroup (G0.filterMap (fun g => if g.id = gId then some ⟨gId, R2⟩ else some g) ++
      (S ++ [(⟨N, [r]⟩ : SnapGroup)])) gId = some ⟨gId, R2⟩ := by
    rw [findGroup_append]
    have hid2 : ∀ g g2 : SnapGroup,
        (if g.id = gId then some (⟨gId, R2⟩ : SnapGroup) else some g) = some g2 →
        g2.id = g.id := by
      intro g g2 he
      by_cases hgi : g.id = gId
      · rw [if_pos hgi] at he
        rw [← Option.some.inj he, hgi]
      · rw [if_neg hgi] at he
        rw [← Option.some.inj he]
    rw [findGroup_filterMap hid2 hnd]
    rcases hgmem with ⟨g0, hg0, hg0id⟩
    rw [findGroup_of_mem hg0 hg0id hnd]
    simp [hg0id]
  -- the prune step
  have hprune : ∀ s2 : ServiceState, s2.groups =
      G0.filterMap (fun g => if g.id = gId then some ⟨gId, R2⟩ else some g) ++
        (S ++ [(⟨N, [r]⟩ : SnapGroup)]) →
      (onWindowRemovedFromGroup s2 Wr.groupId).groups =
        G0.filterMap (egpart gId R2) ++ (S ++ [(⟨N, [r]⟩ : SnapGroup)]) ∧
      (onWindowRemovedFromGroup s2 Wr.groupId).windows = s2.windows ∧
      (onWindowRemovedFromGroup s2 Wr.groupId).nextGroupId = s2.nextGroupId := by
    intro s2 hg2
    rw [hWgid]
    unfold onWindowRemovedFromGroup removeGroup
    rw [hg2, hfind]
    by_cases hR2 : R2 = []
    · have hlen : (⟨gId, R2⟩ : SnapGroup).members.length = 0 := by rw [hR2]; rfl
      simp only [hlen, if_pos]
      refine ⟨?_, trivial, trivial⟩
      rw [eraseGroupId_append, eraseGroupId_filterMap]
      have h1 : (G0.filterMap fun g =>
          match (if g.id = gId then some (⟨gId, R2⟩ : SnapGroup) else some g) with
          | some b => if b.id = gId then none else some b
          | none => none) = G0.filterMap (egpart gId R2) := by
        refine List.filterMap_congr ?_
        intro g hg
        by_cases hgi : g.id = gId
        · simp [hgi, egpart, hR2]
        · simp [hgi, egpart]
      have h2 : eraseGroupId (S ++ [(⟨N, [r]⟩ : SnapGroup)]) gId =
          S ++ [(⟨N, [r]⟩ : SnapGroup)] := by
        refine eraseGroupId_eq_self ?_
        intro g hg
        rcases List.mem_append.mp hg with h | h
        · exact (hS g h).2
        · simp only [List.mem_singleton] at h
          rw [h]
          exact hNgid
      rw [h1, h2]
    · have hlen : ¬(⟨gId, R2⟩ : SnapGroup).members.length = 0 :=
        fun hc => hR2 (List.length_eq_zero.mp hc)
      simp only [hlen, if_neg, if_false]
      refine ⟨?_, trivial, trivial⟩
      rw [hg2]
      congr 1
      refine List.filterMap_congr ?_
      intro g hg
      by_cases hgi : g.id = gId
      · simp [hgi, egpart, hR2]
      · simp [hgi, egpart]
  obtain ⟨hpg, hpw, hpn⟩ := hprune
    { (addGroup st).1 with
        windows := updateWindow (addGroup st).1.windows r (setGroupFn (addGroup st).2 none none),
        groups := moveMember (addGroup st).1.groups r Wr.groupId (addGroup st).2 }
    hmm
  refine ⟨?_, ?_, ?_⟩
  · rw [hstep]
    show (setGroup (addGroup st).1 r (addGroup st).2 none none).groups = _
    rw [hsg]
    exact hpg
  · rw [hstep]
    show (setGroup (addGroup st).1 r (addGroup st).2 none none).nextGroupId = _
    rw [hsg, hpn]
    show st.nextGroupId + 1 = N + 1
    rw [hnext]
  · rw [hstep, offsetBy_def]
    show ({ (setGroup (addGroup st).1 r (addGroup st).2 none none) with
        windows := updateWindow
          (setGroup (addGroup st).1 r (addGroup st).2 none none).windows r
          (offsetByFn ⟨jsign o.x * (1 / 2) * UNDOCK_MOVE_SCALE,
                       jsign o.y * (1 / 2) * UNDOCK_MOVE_SCALE⟩) } : ServiceState).windows = _
    rw [hsg, hpw]
    show updateWindow (updateWindow st.windows r (setGroupFn (addGroup st).2 none none)) r
      (offsetByFn ⟨jsign o.x * (1 / 2) * UNDOCK_MOVE_SCALE,
                   jsign o.y * (1 / 2) * UNDOCK_MOVE_SCALE⟩) = _
    rw [hN2]
    exact updateWindow_comp fun x => rfl

/-- The per-window update of an explode step preserves identities. -/
theorem explodeFn_identity (N : Nat) (d : Point) (x : SnapWindow) :
    (offsetByFn d (setGroupFn N none none x)).identity = x.identity := rfl

/-- Full characterisation of the explode loop: folding the detach-and-nudge
step over the remaining members, starting from a registry in mid-explode
shape, removes the active group, appends one fresh singleton group per
member in order, advances the id counter by the number of members, leaves
every other window untouched, and gives the i-th member the back-reference
to the i-th fresh group and the nudge scaled from its precomputed offset. -/
theorem explode_fold_shape (gId : Nat) (W : WindowIdentity → SnapWindow)
    (G0 : List SnapGroup)
    (hnd : (G0.map SnapGroup.id).Nodup)
    (hgmem : ∃ g0 ∈ G0, g0.id = gId)
    (L : List (WindowIdentity × Point)) :
    ∀ (st : ServiceState) (S : List SnapGroup) (N : Nat),
      st.nextGroupId = N →
      st.groups = G0.filterMap (egpart gId (L.map Prod.fst)) ++ S →
      (∀ g ∈ G0, g.id < N) →
      gId < N →
      (∀ g ∈ S, g.id < N ∧ g.id ≠ gId) →
      (L.map Prod.fst).Nodup →
      (∀ p ∈ L, findWindow st.windows p.1 = some (W p.1) ∧ (W p.1).groupId = gId ∧
        (W p.1).identity = p.1) →
      (L.foldl explodeStep st).groups =
          G0.filterMap (egpart gId []) ++ S ++ singles N (L.map Prod.fst) ∧
      (L.foldl explodeStep st).nextGroupId = N + L.length ∧
      (∀ wid, wid ∉ L.map Prod.fst →
        findWindow (L.foldl explodeStep st).windows wid = findWindow st.windows wid) ∧
      (∀ i (hi : i < L.length),
        findWindow (L.foldl explodeStep st).windows (L.get ⟨i, hi⟩).1 =
          some { W (L.get ⟨i, hi⟩).1 with
                   groupId := N + i,
                   state := ⟨⟨(W (L.get ⟨i, hi⟩).1).state.center.x +
                                jsign (L.get ⟨i, hi⟩).2.x * (1 / 2) * UNDOCK_MOVE_SCALE,
                              (W (L.get ⟨i, hi⟩).1).state.center.y +
                                jsign (L.get ⟨i, hi⟩).2.y * (1 / 2) * UNDOCK_MOVE_SCALE⟩,
                             (W (L.get ⟨i, hi⟩).1).state.halfSize⟩ }) := by
  induction L with
  | nil =>
      intro st S N hnext hgroups hbG hgid hS hndL hH
      refine ⟨?_, ?_, ?_, ?_⟩
      · rw [List.foldl_nil, hgroups]
        simp [singles]
      · rw [List.foldl_nil, hnext]
        simp
      · intro wid _
        rw [List.foldl_nil]
      · intro i hi
        exact absurd hi (by simp)
  | cons p Lrest ih =>
      intro st S N hnext hgroups hbG hgid hS hndL hH
      obtain ⟨r, o⟩ := p
      have hmapc : ((r, o) :: Lrest).map Prod.fst = r :: Lrest.map Prod.fst := rfl
      rw [hmapc] at hgroups hndL
      have hndL2 := List.nodup_cons.mp hndL
      obtain ⟨hfwr, hWgidr, hWidr⟩ := hH (r, o) (List.mem_cons_self _ _)
      obtain ⟨sh1, sh2, sh3⟩ := explodeStep_shape gId N r o G0 S st (W r)
        (Lrest.map Prod.fst) hnd hgmem hnext hgroups hbG hgid hS hndL2.1 hfwr hWgidr
      rw [List.foldl_cons]
      have hbG2 : ∀ g ∈ G0, g.id < N + 1 := fun g hg => lt_trans (hbG g hg) (Nat.lt_succ_self N)
      have hgid2 : gId < N + 1 := lt_trans hgid (Nat.lt_succ_self N)
      have hS2 : ∀ g ∈ S ++ [(⟨N, [r]⟩ : SnapGroup)], g.id < N + 1 ∧ g.id ≠ gId := by
        intro g hg
        rcases List.mem_append.mp hg with h | h
        · exact ⟨lt_trans (hS g h).1 (Nat.lt_succ_self N), (hS g h).2⟩
        · simp only [List.mem_singleton] at h
          rw [h]
          exact ⟨Nat.lt_succ_self N, (ne_of_lt hgid).symm⟩
      have hH2 : ∀ p2 ∈ Lrest, findWindow (explodeStep st (r, o)).windows p2.1 =
          some (W p2.1) ∧ (W p2.1).groupId = gId ∧ (W p2.1).identity = p2.1 := by
        intro p2 hp2
        have hne : p2.1 ≠ r := by
          intro he
          exact hndL2.1 (he ▸ List.mem_map_of_mem Prod.fst hp2)
        rw [sh3, findWindow_updateWindow_ne (fun x => explodeFn_identity _ _ x) hne]
        exact hH p2 (List.mem_cons_of_mem _ hp2)
      obtain ⟨ihG, ihN, ihP, ihW⟩ := ih (explodeStep st (r, o)) (S ++ [(⟨N, [r]⟩ : SnapGroup)])
        (N + 1) sh2 sh1 hbG2 hgid2 hS2 hndL2.2 hH2
      refine ⟨?_, ?_, ?_, ?_⟩
      · rw [ihG, hmapc]
        simp [singles]
      · rw [ihN]
        simp only [List.length_cons]
        omega
      · intro wid hwid
        rw [hmapc] at hwid
        have hne : wid ≠ r := fun he => hwid (he ▸ List.mem_cons_self _ _)
        have hnt : wid ∉ Lrest.map Prod.fst := fun hm => hwid (List.mem_cons_of_mem _ hm)
        rw [ihP wid hnt, sh3, findWindow_updateWindow_ne (fun x => explodeFn_identity _ _ x) hne]
      · intro i hi
        cases i with
        | zero =>
            have hget : (((r, o) :: Lrest).get ⟨0, hi⟩) = (r, o) := rfl
            rw [hget]
            have hnr : r ∉ Lrest.map Prod.fst := hndL2.1
            rw [ihP r hnr, sh3, findWindow_updateWindow_self (fun x => explodeFn_identity _ _ x),
              hfwr]
            show some _ = _
            rw [Nat.add_zero]
            rfl
        | succ j =>
            have hj : j < Lrest.length := by
              simp only [List.length_cons] at hi
              omega
            have hget : (((r, o) :: Lrest).get ⟨j + 1, hi⟩) = Lrest.get ⟨j, hj⟩ := rfl
            rw [hget]
            have := ihW j hj
            rw [this]
            have harith : N + 1 + j = N + (j + 1) := by omega
            rw [harith]

/-- Instantiation of the explode characterisation at a well-formed registry:
`explodeGroup` on a found group of more than one member removes that group,
appends the fresh singleton groups, and updates the i-th member window with
the i-th fresh back-reference and the nudge computed from `calculateOffset`
evaluated in the original state `s`. -/
theorem explodeGroup_shape {s : ServiceState} {wid : WindowIdentity} {g : SnapGroup}
    (hWF : WF s) (hgc : groupContaining s.groups wid = some g)
    (hlen : 1 < g.members.length) :
    (explodeGroup s wid).groups =
      s.groups.filterMap (egpart g.id []) ++ singles s.nextGroupId g.members ∧
    ∀ i (hi : i < g.members.length),
      ∃ w, findWindow s.windows (g.members.get ⟨i, hi⟩) = some w ∧
        w.groupId = g.id ∧ w.identity = g.members.get ⟨i, hi⟩ ∧
        findWindow (explodeGroup s wid).windows (g.members.get ⟨i, hi⟩) =
          some { w with
                   groupId := s.nextGroupId + i,
                   state := ⟨⟨w.state.center.x +
                                jsign (calculateOffset s w).x * (1 / 2) * UNDOCK_MOVE_SCALE,
                              w.state.center.y +
                                jsign (calculateOffset s w).y * (1 / 2) * UNDOCK_MOVE_SCALE⟩,
                             w.state.halfSize⟩ } := by
  obtain ⟨hnd, hwnd, hb, hne, hres, hmnd⟩ := hWF
  obtain ⟨hgmem, hwidmem⟩ := groupContaining_some hgc
  have hmemne : g.members ≠ [] := by
    intro hnil
    rw [hnil] at hlen
    simp at hlen
  have heq : explodeGroup s wid =
      (g.members.zip (g.members.map fun mid =>
        match findWindow s.windows mid with
        | some w => calculateOffset s w
        | none => ⟨0, 0⟩)).foldl explodeStep s := by
    simp only [explodeGroup, hgc, if_pos hlen]
  have hlenoff : (g.members.map fun mid =>
      match findWindow s.windows mid with
      | some w => calculateOffset s w
      | none => (⟨0, 0⟩ : Point)).length = g.members.length := List.length_map _ _
  have hmapfst : ((g.members.zip (g.members.map fun mid =>
      match findWindow s.windows mid with
      | some w => calculateOffset s w
      | none => (⟨0, 0⟩ : Point))).map Prod.fst) = g.members :=
    List.map_fst_zip _ _ (le_of_eq hlenoff.symm)
  have hlenL : (g.members.zip (g.members.map fun mid =>
      match findWindow s.windows mid with
      | some w => calculateOffset s w
      | none => (⟨0, 0⟩ : Point))).length = g.members.length := by
    rw [List.length_zip, hlenoff, Nat.min_self]
  have hself : s.groups.filterMap (egpart g.id g.members) = s.groups := by
    refine filterMap_eq_self_of ?_
    intro g2 hg2
    by_cases h2 : g2.id = g.id
    · have hg2g : g2 = g := List.inj_on_of_nodup_map hnd hg2 hgmem h2
      rw [hg2g]
      simp [egpart, hmemne]
    · simp [egpart, h2]
  have hH : ∀ p ∈ g.members.zip (g.members.map fun mid =>
      match findWindow s.windows mid with
      | some w => calculateOffset s w
      | none => (⟨0, 0⟩ : Point)),
      findWindow s.windows p.1 = some (resolveW s p.1) ∧ (resolveW s p.1).groupId = g.id ∧
      (resolveW s p.1).identity = p.1 := by
    intro p hp
    have hmem : p.1 ∈ g.members := (List.of_mem_zip hp).1
    rcases hres g hgmem p.1 hmem with ⟨w, hwmem, hwid2, hwg⟩
    have hfw : findWindow s.windows p.1 = some w := findWindow_of_mem hwmem hwid2 hwnd
    have hWd : resolveW s p.1 = w := by
      unfold resolveW
      rw [hfw]
      rfl
    rw [hWd, hfw]
    exact ⟨rfl, hwg, hwid2⟩
  obtain ⟨FG, FN, FP, FW⟩ := explode_fold_shape g.id (resolveW s) s.groups hnd
    ⟨g, hgmem, rfl⟩ (g.members.zip (g.members.map fun mid =>
      match findWindow s.windows mid with
      | some w => calculateOffset s w
      | none => (⟨0, 0⟩ : Point))) s [] s.nextGroupId rfl
    (by rw [hmapfst, hself, List.append_nil]) hb (hb g hgmem)
    (by intro g2 hg2; exact absurd hg2 (List.not_mem_nil g2))
    (by rw [hmapfst]; exact hmnd g hgmem) hH
  constructor
  · rw [heq, FG, hmapfst, List.append_nil]
  · intro i hi
    have hiL : i < (g.members.zip (g.members.map fun mid =>
        match findWindow s.windows mid with
        | some w => calculateOffset s w
        | none => (⟨0, 0⟩ : Point))).length := by
      rw [hlenL]
      exact hi
    have hget : (g.members.zip (g.members.map fun mid =>
        match findWindow s.windows mid with
        | some w => calculateOffset s w
        | none => (⟨0, 0⟩ : Point))).get ⟨i, hiL⟩ =
        (g.members.get ⟨i, hi⟩,
         (fun mid =>
           match findWindow s.windows mid with
           | some w => calculateOffset s w
           | none => (⟨0, 0⟩ : Point)) (g.members.get ⟨i, hi⟩)) := by
      rw [List.get_zip]
      congr 1
      exact List.get_map _
    have h1 : ((g.members.zip (g.members.map fun mid =>
        match findWindow s.windows mid with
        | some w => calculateOffset s w
        | none => (⟨0, 0⟩ : Point))).get ⟨i, hiL⟩).1 = g.members.get ⟨i, hi⟩ := by
      rw [hget]
    have h2 : ((g.members.zip (g.members.map fun mid =>
        match findWindow s.windows mid with
        | some w => calculateOffset s w
        | none => (⟨0, 0⟩ : Point))).get ⟨i, hiL⟩).2 =
        (fun mid =>
          match findWindow s.windows mid with
          | some w => calculateOffset s w
          | none => (⟨0, 0⟩ : Point)) (g.members.get ⟨i, hi⟩) := by
      rw [hget]
    rcases hres g hgmem (g.members.get ⟨i, hi⟩) (List.get_mem _ _ _) with ⟨w, hwmem, hwid2, hwg⟩
    have hfw : findWindow s.windows (g.members.get ⟨i, hi⟩) = some w :=
      findWindow_of_mem hwmem hwid2 hwnd
    have hWd : resolveW s (g.members.get ⟨i, hi⟩) = w := by
      unfold resolveW
      rw [hfw]
      rfl
    have hoffsv : (fun mid =>
        match findWindow s.windows mid with
        | some w2 => calculateOffset s w2
        | none => (⟨0, 0⟩ : Point)) (g.members.get ⟨i, hi⟩) = calculateOffset s w := by
      show (match findWindow s.windows (g.members.get ⟨i, hi⟩) with
        | some w2 => calculateOffset s w2
        | none => (⟨0, 0⟩ : Point)) = _
      rw [hfw]
    refine ⟨w, hfw, hwg, hwid2, ?_⟩
    have hfin := FW i hiL
    rw [h1, h2] at hfin
    rw [hWd, hoffsv] at hfin
    rw [heq]
    exact hfin

theorem singles_id_ge {R : List WindowIdentity} :
    ∀ {n : Nat}, ∀ g2 ∈ singles n R, n ≤ g2.id := by
  induction R with
  | nil =>
      intro n g2 h
      simp [singles] at h
  | cons r rest ih =>
      intro n g2 h
      rw [singles] at h
      rcases List.mem_cons.mp h with h | h
      · rw [h]
      · exact le_trans (Nat.le_succ n) (ih g2 h)

theorem singles_get_mem : ∀ (R : List WindowIdentity) (n i : Nat) (hi : i < R.length),
    (⟨n + i, [R.get ⟨i, hi⟩]⟩ : SnapGroup) ∈ singles n R := by
  intro R
  induction R with
  | nil =>
      intro n i hi
      simp at hi
  | cons r rest ih =>
      intro n i hi
      cases i with
      | zero =>
          show (⟨n + 0, [r]⟩ : SnapGroup) ∈ _
          rw [Nat.add_zero, singles]
          exact List.mem_cons_self _ _
      | succ j =>
          have hj : j < rest.length := by
            simp only [List.length_cons] at hi
            omega
          have harith : n + (j + 1) = n + 1 + j := by omega
          rw [singles]
          refine List.mem_cons_of_mem _ ?_
          show (⟨n + (j + 1), [rest.get ⟨j, hj⟩]⟩ : SnapGroup) ∈ _
          rw [harith]
          exact ih (n + 1) j hj

/-- C2: calling `explodeGroup` with the identity of any member of a
registered group with more than one window removes the original group from
the registry and moves each of its N windows into its own freshly created
singleton group — the i-th member ends up alone in the fresh group with id
`nextGroupId + i`, and its back-reference points there. -/
theorem explodeGroup_splits_into_singletons {s : ServiceState} {wid : WindowIdentity}
    {g : SnapGroup} (hWF : WF s) (hgc : groupContaining s.groups wid = some g)
    (hlen : 1 < g.members.length) :
    (∀ g2 ∈ (explodeGroup s wid).groups, g2.id ≠ g.id) ∧
    ∀ i (hi : i < g.members.length),
      ((⟨s.nextGroupId + i, [g.members.get ⟨i, hi⟩]⟩ : SnapGroup) ∈
        (explodeGroup s wid).groups) ∧
      ∃ w2, findWindow (explodeGroup s wid).windows (g.members.get ⟨i, hi⟩) = some w2 ∧
        w2.groupId = s.nextGroupId + i := by
  obtain ⟨SG, SW⟩ := explodeGroup_shape hWF hgc hlen
  have hb : ∀ g2 ∈ s.groups, g2.id < s.nextGroupId := hWF.2.2.1
  have hgmem : g ∈ s.groups := (groupContaining_some hgc).1
  constructor
  · intro g2 hg2
    rw [SG] at hg2
    rcases List.mem_append.mp hg2 with h | h
    · rcases List.mem_filterMap.mp h with ⟨a, ha, hae⟩
      by_cases hai : a.id = g.id
      · rw [egpart, if_pos hai] at hae
        simp at hae
      · rw [egpart, if_neg hai] at hae
        rw [← Option.some.inj hae]
        exact hai
    · have := singles_id_ge g2 h
      have hlt : g.id < s.nextGroupId := hb g hgmem
      omega
  · intro i hi
    obtain ⟨w, hfw, hwg, hwid2, hfin⟩ := SW i hi
    refine ⟨?_, ⟨_, hfin, rfl⟩⟩
    rw [SG]
    exact List.mem_append_right _ (singles_get_mem g.members s.nextGroupId i hi)

/-- C2 (witness): exploding the edge-to-edge pair through its left member:
the fresh singleton group `⟨2, [idA]⟩` is registered afterwards and no
group with the original id 1 remains. -/
theorem explodeGroup_splits_into_singletons_witness :
    (⟨2, [idA]⟩ : SnapGroup) ∈ (explodeGroup sPair idA).groups :=
  ((@explodeGroup_splits_into_singletons sPair idA ⟨1, [idA, idB]⟩
    (by unfold WF NEall; decide) (by decide) (by decide)).2 0 (by decide)).1

/-- C7: in `explodeGroup` on a group of more than one window, the nudge
applied to the i-th window is derived from `calculateOffset` evaluated in
the pre-explode state `s`, with all N windows still grouped: the final
center is the original center plus, per axis, the sign of that precomputed
offset component times half the undock scale. -/
theorem explode_offsets_precomputed {s : ServiceState} {wid : WindowIdentity}
    {g : SnapGroup} (hWF : WF s) (hgc : groupContaining s.groups wid = some g)
    (hlen : 1 < g.members.length) :
    ∀ i (hi : i < g.members.length),
      ∃ w, findWindow s.windows (g.members.get ⟨i, hi⟩) = some w ∧
        w.groupId = g.id ∧
        findWindow (explodeGroup s wid).windows (g.members.get ⟨i, hi⟩) =
          some { w with
                   groupId := s.nextGroupId + i,
                   state := ⟨⟨w.state.center.x +
                                jsign (calculateOffset s w).x * (1 / 2) * UNDOCK_MOVE_SCALE,
                              w.state.center.y +
                                jsign (calculateOffset s w).y * (1 / 2) * UNDOCK_MOVE_SCALE⟩,
                             w.state.halfSize⟩ } := by
  intro i hi
  obtain ⟨w, hfw, hwg, hwid2, hfin⟩ := (explodeGroup_shape hWF hgc hlen).2 i hi
  exact ⟨w, hfw, hwg, hfin⟩

/-- C7 (witness): for the left window of the exploded pair, the final x
coordinate is the original one displaced by the sign of its precomputed
offset times half the scale. -/
theorem explode_offsets_precomputed_witness :
    ((findWindow (explodeGroup sPair idA).windows idA).getD wA).state.center.x =
      wA.state.center.x +
        jsign (calculateOffset sPair wA).x * (1 / 2) * UNDOCK_MOVE_SCALE := by
  obtain ⟨w, hfw, hwg, hfin⟩ :=
    @explode_offsets_precomputed sPair idA ⟨1, [idA, idB]⟩
      (by unfold WF NEall; decide) (by decide) (by decide) 0 (by decide)
  have hgetA : ((⟨1, [idA, idB]⟩ : SnapGroup).members.get ⟨0, by decide⟩) = idA := rfl
  rw [hgetA] at hfw hfin
  have hwa : w = wA := by
    have hA : findWindow sPair.windows idA = some wA := by decide
    rw [hA] at hfw
    exact (Option.some.inj hfw).symm
  rw [hfin, hwa]
  rfl

/-- C10: in `explodeGroup`, unlike `undock`, a zero component of a
window's precomputed repulsion offset produces zero displacement on that
axis (`Math.sign(0) = 0`, with no default-to-positive); a window whose
offset is zero on both axes keeps its exact rectangle through the
explode. -/
theorem explode_zero_offset_keeps_position {s : ServiceState} {wid : WindowIdentity}
    {g : SnapGroup} (hWF : WF s) (hgc : groupContaining s.groups wid = some g)
    (hlen : 1 < g.members.length) :
    ∀ i (hi : i < g.members.length) (w : SnapWindow),
      findWindow s.windows (g.members.get ⟨i, hi⟩) = some w →
      ∃ w2, findWindow (explodeGroup s wid).windows (g.members.get ⟨i, hi⟩) = some w2 ∧
        ((calculateOffset s w).x = 0 → w2.state.center.x = w.state.center.x) ∧
        ((calculateOffset s w).y = 0 → w2.state.center.y = w.state.center.y) ∧
        (calculateOffset s w = ⟨0, 0⟩ → w2.state = w.state) := by
  intro i hi w hfw
  obtain ⟨w', hfw', hwg, hwid2, hfin⟩ := (explodeGroup_shape hWF hgc hlen).2 i hi
  rw [hfw] at hfw'
  obtain rfl : w = w' := Option.some.inj hfw'
  refine ⟨_, hfin, ?_, ?_, ?_⟩
  · intro hx
    show w.state.center.x + jsign (calculateOffset s w).x * (1 / 2) * UNDOCK_MOVE_SCALE =
      w.state.center.x
    rw [hx, jsign_zero]
    ring
  · intro hy
    show w.state.center.y + jsign (calculateOffset s w).y * (1 / 2) * UNDOCK_MOVE_SCALE =
      w.state.center.y
    rw [hy, jsign_zero]
    ring
  · intro hxy
    show (⟨⟨w.state.center.x + jsign (calculateOffset s w).x * (1 / 2) * UNDOCK_MOVE_SCALE,
           w.state.center.y + jsign (calculateOffset s w).y * (1 / 2) * UNDOCK_MOVE_SCALE⟩,
          w.state.halfSize⟩ : Rect) = w.state
    rw [hxy, jsign_zero]
    have hx0 : w.state.center.x + 0 * (1 / 2) * UNDOCK_MOVE_SCALE = w.state.center.x := by ring
    have hy0 : w.state.center.y + 0 * (1 / 2) * UNDOCK_MOVE_SCALE = w.state.center.y := by ring
    rw [hx0, hy0]

/-- C10 (witness): exploding the non-touching pair leaves the first
window's rectangle exactly in place — its repulsion offset is zero on both
axes, so `Math.sign(0) * 0.5 * UNDOCK_MOVE_SCALE` moves it by nothing. -/
theorem explode_zero_offset_keeps_position_witness :
    ((findWindow (explodeGroup sFar idA).windows idA).getD wFar1).state = wFar1.state := by
  obtain ⟨w2, hfin, hx, hy, hboth⟩ :=
    @explode_zero_offset_keeps_position sFar idA ⟨5, [idA, idB]⟩
      (by unfold WF NEall; decide) (by decide) (by decide) 0 (by decide) wFar1 (by decide)
  have hgetA : ((⟨5, [idA, idB]⟩ : SnapGroup).members.get ⟨0, by decide⟩) = idA := rfl
  rw [hgetA] at hfin
  have hcalc : calculateOffset sFar wFar1 = ⟨0, 0⟩ := by
    have hab : ("a" : String) ≠ "b" := by decide
    have hba : ("b" : String) ≠ "a" := by decide
    simp [calculateOffset, offsetContribution, sFar, wFar1, wFar2, idA, idB,
      findGroup, findWindow, RectUtils.distance, MeasureResult.minAbs, MeasureResult.min,
      jsign, hab, hba]
    norm_num [abs, inf_eq_min, min_def, sup_eq_max, max_def]
  rw [hfin]
  exact hboth hcalc

/-- The per-window update of a commit step preserves identities. -/
theorem applyFn_identity (t : SnapTarget) (r : WindowIdentity) (x : SnapWindow) :
    (applyFn t r x).identity = x.identity := rfl

/-- One step of the commit loop on a registry in mid-commit shape: the head
member leaves the active group (pruned if emptied) and is appended to the
target group's member list, and its window record is translated by the
snap offset, resized when it is the anchor, and repointed at the target. -/
theorem applyStep_shape (aid : Nat) (t : SnapTarget)
    (htne : t.groupId ≠ aid) (M : List WindowIdentity) (r : WindowIdentity)
    (R2 acc : List WindowIdentity) (G0 : List SnapGroup) (st : ServiceState) (Wr : SnapWindow)
    (hnd : (G0.map SnapGroup.id).Nodup)
    (hamem : ∃ g0 ∈ G0, g0.id = aid)
    (hgroups : st.groups = G0.filterMap (apart aid t.groupId M (r :: R2) acc))
    (hrR : r ∉ R2)
    (hfw : findWindow st.windows r = some Wr)
    (hWgid : Wr.groupId = aid) :
    (applyStep t st r).groups = G0.filterMap (apart aid t.groupId M R2 (acc ++ [r])) ∧
    (applyStep t st r).nextGroupId = st.nextGroupId ∧
    (applyStep t st r).windows = updateWindow st.windows r (applyFn t r) := by
  have haid : aid ≠ t.groupId := fun he => htne he.symm
  -- the structural move is the same in both branches of applyStep
  have hmm : moveMember st.groups r Wr.groupId t.groupId =
      G0.filterMap (fun g =>
        if g.id = aid then some ⟨aid, R2⟩
        else if g.id = t.groupId then some ⟨t.groupId, M ++ (acc ++ [r])⟩
        else some g) := by
    rw [hgroups, hWgid]
    show (G0.filterMap (apart aid t.groupId M (r :: R2) acc)).map
      (moveMemberFn r aid t.groupId) = _
    rw [map_filterMap_comm]
    refine List.filterMap_congr ?_
    intro g hg
    by_cases hga : g.id = aid
    · have h1 : apart aid t.groupId M (r :: R2) acc g = some ⟨aid, r :: R2⟩ := by
        simp [apart, hga]
      rw [h1, if_pos hga]
      show some (moveMemberFn r aid t.groupId ⟨aid, r :: R2⟩) = _
      rw [moveMemberFn_old (g := (⟨aid, r :: R2⟩ : SnapGroup)) rfl haid,
        removeAllW_cons_self hrR]
    · by_cases hgt : g.id = t.groupId
      · have h1 : apart aid t.groupId M (r :: R2) acc g = some ⟨t.groupId, M ++ acc⟩ := by
          simp [apart, hga, hgt, htne]
        rw [h1, if_neg hga, if_pos hgt]
        show some (moveMemberFn r aid t.groupId ⟨t.groupId, M ++ acc⟩) = _
        rw [moveMemberFn_new (g := (⟨t.groupId, M ++ acc⟩ : SnapGroup)) htne rfl]
        rw [List.append_assoc]
      · have h1 : apart aid t.groupId M (r :: R2) acc g = some g := by
          simp [apart, hga, hgt]
        rw [h1, if_neg hga, if_neg hgt]
        show some (moveMemberFn r aid t.groupId g) = _
        rw [moveMemberFn_other hga hgt]
  have hfind : findGroup (G0.filterMap (fun g =>
      if g.id = aid then some ⟨aid, R2⟩
      else if g.id = t.groupId then some ⟨t.groupId, M ++ (acc ++ [r])⟩
      else some g)) aid = some ⟨aid, R2⟩ := by
    have hid2 : ∀ g g2 : SnapGroup,
        (if g.id = aid then some (⟨aid, R2⟩ : SnapGroup)
         else if g.id = t.groupId then some (⟨t.groupId, M ++ (acc ++ [r])⟩ : SnapGroup)
         else some g) = some g2 → g2.id = g.id := by
      intro g g2 he
      by_cases hga : g.id = aid
      · rw [if_pos hga] at he
        rw [← Option.some.inj he, hga]
      · rw [if_neg hga] at he
        by_cases hgt : g.id = t.groupId
        · rw [if_pos hgt] at he
          rw [← Option.some.inj he, hgt]
        · rw [if_neg hgt] at he
          rw [← Option.some.inj he]
    rw [findGroup_filterMap hid2 hnd]
    rcases hamem with ⟨g0, hg0, hg0id⟩
    rw [findGroup_of_mem hg0 hg0id hnd]
    simp [hg0id]
  have hprune : ∀ s2 : ServiceState, s2.groups =
      G0.filterMap (fun g =>
        if g.id = aid then some ⟨aid, R2⟩
        else if g.id = t.groupId then some ⟨t.groupId, M ++ (acc ++ [r])⟩
        else some g) →
      (onWindowRemovedFromGroup s2 Wr.groupId).groups =
        G0.filterMap (apart aid t.groupId M R2 (acc ++ [r])) ∧
      (onWindowRemovedFromGroup s2 Wr.groupId).windows = s2.windows ∧
      (onWindowRemovedFromGroup s2 Wr.groupId).nextGroupId = s2.nextGroupId := by
    intro s2 hg2
    rw [hWgid]
    unfold onWindowRemovedFromGroup removeGroup
    rw [hg2, hfind]
    by_cases hR2 : R2 = []
    · have hlen : (⟨aid, R2⟩ : SnapGroup).members.length = 0 := by rw [hR2]; rfl
      simp only [hlen, if_pos]
      refine ⟨?_, trivial, trivial⟩
      rw [eraseGroupId_filterMap]
      refine List.filterMap_congr ?_
      intro g hg
      by_cases hga : g.id = aid
      · simp [hga, apart, hR2]
      · by_cases hgt : g.id = t.groupId
        · simp [hga, hgt, apart, htne]
        · simp [hga, hgt, apart]
    · have hlen : ¬(⟨aid, R2⟩ : SnapGroup).members.length = 0 :=
        fun hc => hR2 (List.length_eq_zero.mp hc)
      simp only [hlen, if_neg, if_false]
      refine ⟨?_, trivial, trivial⟩
      rw [hg2]
      refine List.filterMap_congr ?_
      intro g hg
      by_cases hga : g.id = aid
      · simp [hga, apart, hR2]
      · by_cases hgt : g.id = t.groupId
        · simp [hga, hgt, apart, htne]
        · simp [hga, hgt, apart]
  unfold applyStep
  by_cases hcond : r = t.activeWindow ∧ t.halfSize.isSome
  · rw [if_pos hcond]
    rw [setGroup_eq_of_found t.groupId (some t.snapOffset) t.halfSize hfw]
    obtain ⟨hpg, hpw, hpn⟩ := hprune
      { st with
          windows := updateWindow st.windows r (setGroupFn t.groupId (some t.snapOffset) t.halfSize),
          groups := moveMember st.groups r Wr.groupId t.groupId }
      hmm
    refine ⟨hpg, hpn, ?_⟩
    rw [hpw]
    show updateWindow st.windows r (setGroupFn t.groupId (some t.snapOffset) t.halfSize) = _
    have : applyFn t r = setGroupFn t.groupId (some t.snapOffset) t.halfSize := by
      unfold applyFn
      rw [if_pos hcond]
    rw [this]
  · rw [if_neg hcond]
    rw [setGroup_eq_of_found t.groupId (some t.snapOffset) none hfw]
    obtain ⟨hpg, hpw, hpn⟩ := hprune
      { st with
          windows := updateWindow st.windows r (setGroupFn t.groupId (some t.snapOffset) none),
          groups := moveMember st.groups r Wr.groupId t.groupId }
      hmm
    refine ⟨hpg, hpn, ?_⟩
    rw [hpw]
    show updateWindow st.windows r (setGroupFn t.groupId (some t.snapOffset) none) = _
    have : applyFn t r = setGroupFn t.groupId (some t.snapOffset) none := by
      unfold applyFn
      rw [if_neg hcond]
    rw [this]

/-- Full characterisation of the commit loop: folding the commit step over
the remaining members of the active group empties and removes it, appends
the members in order to the target group, leaves every other window alone,
and gives each moved window the target back-reference, the snap-offset
translation, and (for the anchor, when the target resizes) the new
halfSize. -/
theorem apply_fold_shape (aid : Nat) (t : SnapTarget) (htne : t.groupId ≠ aid)
    (M : List WindowIdentity) (W : WindowIdentity → SnapWindow)
    (G0 : List SnapGroup) (hnd : (G0.map SnapGroup.id).Nodup)
    (hamem : ∃ g0 ∈ G0, g0.id = aid) (R : List WindowIdentity) :
    ∀ (st : ServiceState) (acc : List WindowIdentity),
      st.groups = G0.filterMap (apart aid t.groupId M R acc) →
      R.Nodup →
      (∀ r ∈ R, findWindow st.windows r = some (W r) ∧ (W r).groupId = aid ∧
        (W r).identity = r) →
      (R.foldl (applyStep t) st).groups =
        G0.filterMap (apart aid t.groupId M [] (acc ++ R)) ∧
      (R.foldl (applyStep t) st).nextGroupId = st.nextGroupId ∧
      (∀ wid, wid ∉ R → findWindow (R.foldl (applyStep t) st).windows wid =
        findWindow st.windows wid) ∧
      (∀ r ∈ R, findWindow (R.foldl (applyStep t) st).windows r =
        some { W r with
                 groupId := t.groupId,
                 state := ⟨⟨(W r).state.center.x + t.snapOffset.x,
                            (W r).state.center.y + t.snapOffset.y⟩,
                           (if r = t.activeWindow ∧ t.halfSize.isSome then t.halfSize
                            else none).getD (W r).state.halfSize⟩ }) := by
  induction R with
  | nil =>
      intro st acc hgroups hndR hH
      refine ⟨?_, rfl, ?_, ?_⟩
      · rw [List.foldl_nil, hgroups, List.append_nil]
      · intro wid _
        rw [List.foldl_nil]
      · intro r hr
        exact absurd hr (List.not_mem_nil r)
  | cons r R2 ih =>
      intro st acc hgroups hndR hH
      have hndR2 := List.nodup_cons.mp hndR
      obtain ⟨hfwr, hWgidr, hWidr⟩ := hH r (List.mem_cons_self _ _)
      obtain ⟨sh1, sh2, sh3⟩ := applyStep_shape aid t htne M r R2 acc G0 st (W r)
        hnd hamem hgroups hndR2.1 hfwr hWgidr
      rw [List.foldl_cons]
      have hH2 : ∀ r2 ∈ R2, findWindow (applyStep t st r).windows r2 = some (W r2) ∧
          (W r2).groupId = aid ∧ (W r2).identity = r2 := by
        intro r2 hr2
        have hne : r2 ≠ r := fun he => hndR2.1 (he ▸ hr2)
        rw [sh3, findWindow_updateWindow_ne (fun x => applyFn_identity t r x) hne]
        exact hH r2 (List.mem_cons_of_mem _ hr2)
      obtain ⟨ihG, ihN, ihP, ihW⟩ := ih (applyStep t st r) (acc ++ [r]) sh1 hndR2.2 hH2
      refine ⟨?_, ?_, ?_, ?_⟩
      · rw [ihG]
        have : acc ++ [r] ++ R2 = acc ++ r :: R2 := by
          rw [List.append_assoc, List.singleton_append]
        rw [this]
      · rw [ihN, sh2]
      · intro wid hwid
        have hne : wid ≠ r := fun he => hwid (he ▸ List.mem_cons_self _ _)
        have hnt : wid ∉ R2 := fun hm => hwid (List.mem_cons_of_mem _ hm)
        rw [ihP wid hnt, sh3, findWindow_updateWindow_ne (fun x => applyFn_identity t r x) hne]
      · intro r2 hr2
        rcases List.mem_cons.mp hr2 with he | hm
        · subst he
          rw [ihP r2 hndR2.1, sh3,
            findWindow_updateWindow_self (fun x => applyFn_identity t r2 x), hfwr]
          rfl
        · exact ihW r2 hm

theorem getD_anchor_halfSize (c1 : Prop) [Decidable c1] (hs : Option Point) (d : Point) :
    ((if c1 ∧ hs.isSome then hs else none).getD d) = if c1 then hs.getD d else d := by
  by_cases h1 : c1
  · cases hs with
    | none => simp [h1]
    | some h => simp [h1]
  · simp [h1]

theorem apart_id_preserve (aid tid : Nat) (M R acc : List WindowIdentity) :
    ∀ g g2 : SnapGroup, apart aid tid M R acc g = some g2 → g2.id = g.id := by
  intro g g2 he
  unfold apart at he
  by_cases hga : g.id = aid
  · rw [if_pos hga] at he
    by_cases hR : R = []
    · rw [if_pos hR] at he
      exact absurd he (by simp)
    · rw [if_neg hR] at he
      rw [← Option.some.inj he, hga]
  · rw [if_neg hga] at he
    by_cases hgt : g.id = tid
    · rw [if_pos hgt] at he
      rw [← Option.some.inj he, hgt]
    · rw [if_neg hgt] at he
      rw [← Option.some.inj he]

/-- C3 (amended): on a commit whose re-queried snap target is VALID and whose
debug flag `window.foo` is unset, every window of the active group is reassigned
to the target group, each window's center shifted by the target's snap offset,
with the anchor window (`activeWindow`) alone receiving the target's `halfSize`
when one is provided; the target group ends up holding its old members followed
by the active group's members, and the active group's id is gone from the
registry. -/
theorem applySnapTarget_shape {s : ServiceState} {ag tg : SnapGroup} {t : SnapTarget}
    (resolver : List SnapGroup → SnapGroup → Option SnapTarget)
    (hWF : WF s)
    (hag : findGroup s.groups ag.id = some ag)
    (ht : resolver s.groups ag = some t)
    (hv : t.validity = Validity.VALID)
    (htg : findGroup s.groups t.groupId = some tg)
    (htne : t.groupId ≠ ag.id) :
    (∀ wid ∈ ag.members, ∃ w, findWindow s.windows wid = some w ∧
      findWindow (applySnapTarget resolver false s ag).windows wid =
        some { w with
                 groupId := t.groupId,
                 state := ⟨⟨w.state.center.x + t.snapOffset.x,
                            w.state.center.y + t.snapOffset.y⟩,
                           if wid = t.activeWindow then t.halfSize.getD w.state.halfSize
                           else w.state.halfSize⟩ }) ∧
    (∃ tg2, findGroup (applySnapTarget resolver false s ag).groups t.groupId = some tg2 ∧
      tg2.members = tg.members ++ ag.members) ∧
    (∀ g2 ∈ (applySnapTarget resolver false s ag).groups, g2.id ≠ ag.id) := by
  obtain ⟨hnd, hwnd, hb, hne, hres, hmnd⟩ := hWF
  have hagmem : ag ∈ s.groups := (findGroup_some hag).2
  have htgmem : tg ∈ s.groups := (findGroup_some htg).2
  have htgid : tg.id = t.groupId := (findGroup_some htg).1
  have hagne : ag.members ≠ [] := hne ag hagmem
  have heq : applySnapTarget resolver false s ag =
      { (ag.members.foldl (applyStep t) s) with view := none } := by
    simp only [applySnapTarget, ht]
    rw [if_pos ⟨hv, trivial⟩]
  have hgroups0 : s.groups =
      s.groups.filterMap (apart ag.id t.groupId tg.members ag.members []) := by
    refine (filterMap_eq_self_of ?_).symm
    intro g2 hg2
    by_cases hga : g2.id = ag.id
    · have hg2ag : g2 = ag := List.inj_on_of_nodup_map hnd hg2 hagmem hga
      have heta : (⟨ag.id, ag.members⟩ : SnapGroup) = g2 := by rw [hg2ag]
      simp [apart, hga, hagne, heta]
    · by_cases hgt : g2.id = t.groupId
      · have hg2tg : g2 = tg := List.inj_on_of_nodup_map hnd hg2 htgmem (hgt.trans htgid.symm)
        have happ : (⟨t.groupId, tg.members⟩ : SnapGroup) = g2 := by
          rw [hg2tg, ← htgid]
        simp [apart, hga, hgt, happ, htne]
      · simp [apart, hga, hgt]
  have hH : ∀ r ∈ ag.members, findWindow s.windows r = some (resolveW s r) ∧
      (resolveW s r).groupId = ag.id ∧ (resolveW s r).identity = r := by
    intro r hr
    rcases hres ag hagmem r hr with ⟨w, hwmem, hwid2, hwg⟩
    have hfw : findWindow s.windows r = some w := findWindow_of_mem hwmem hwid2 hwnd
    have hWd : resolveW s r = w := by
      unfold resolveW
      rw [hfw]
      rfl
    rw [hWd, hfw]
    exact ⟨rfl, hwg, hwid2⟩
  obtain ⟨FG, FN, FP, FW⟩ := apply_fold_shape ag.id t htne tg.members (resolveW s) s.groups
    hnd ⟨ag, hagmem, rfl⟩ ag.members s [] hgroups0 (hmnd ag hagmem) hH
  have hnilapp : ([] : List WindowIdentity) ++ ag.members = ag.members := List.nil_append _
  rw [hnilapp] at FG
  refine ⟨?_, ?_, ?_⟩
  · intro wid hwid
    rcases hres ag hagmem wid hwid with ⟨w, hwmem, hwid2, hwg⟩
    have hfw : findWindow s.windows wid = some w := findWindow_of_mem hwmem hwid2 hwnd
    have hWd : resolveW s wid = w := by
      unfold resolveW
      rw [hfw]
      rfl
    refine ⟨w, hfw, ?_⟩
    rw [heq]
    have hFW := FW wid hwid
    rw [hWd] at hFW
    rw [getD_anchor_halfSize] at hFW
    exact hFW
  · rw [heq]
    have hid2 := apart_id_preserve ag.id t.groupId tg.members [] ag.members
    have : findGroup ({ (ag.members.foldl (applyStep t) s) with view := none } :
        ServiceState).groups t.groupId =
        findGroup (ag.members.foldl (applyStep t) s).groups t.groupId := rfl
    rw [this, FG, findGroup_filterMap hid2 hnd, htg]
    have htgne2 : ¬tg.id = ag.id := fun he => htne (htgid.symm.trans he)
    refine ⟨⟨t.groupId, tg.members ++ ag.members⟩, ?_, rfl⟩
    show (apart ag.id t.groupId tg.members [] ag.members tg) = _
    simp [apart, htne, htgne2, htgid]
  · intro g2 hg2
    rw [heq] at hg2
    have : (({ (ag.members.foldl (applyStep t) s) with view := none } :
        ServiceState).groups) = (ag.members.foldl (applyStep t) s).groups := rfl
    rw [this, FG] at hg2
    rcases List.mem_filterMap.mp hg2 with ⟨a, ha, hae⟩
    by_cases hga : a.id = ag.id
    · rw [apart, if_pos hga] at hae
      simp at hae
    · by_cases hgt : a.id = t.groupId
      · rw [apart, if_neg hga, if_pos hgt] at hae
        rw [← Option.some.inj hae]
        exact htne
      · rw [apart, if_neg hga, if_neg hgt] at hae
        rw [← Option.some.inj hae]
        exact hga

/-- C3 (counterexample to the unamended claim): the commit is gated on the
debug flag `window.foo` as well as validity — with the flag set, a commit whose
re-queried target is VALID and names group 3 leaves the window in group 1. -/
theorem applySnapTarget_skips_commit_when_flag_set :
    tValid.validity = Validity.VALID ∧
    tValid.groupId = 3 ∧
    resolverConst sThree.groups (⟨1, [idA, idB]⟩ : SnapGroup) = some tValid ∧
    (findWindow (applySnapTarget resolverConst true sThree
      (⟨1, [idA, idB]⟩ : SnapGroup)).windows idA).map SnapWindow.groupId = some 1 := by
  refine ⟨rfl, rfl, rfl, ?_⟩
  decide

/-- C3 (witness): committing the valid target on the three-window registry
moves window a to group 3 (anchor) and group 3 ends up holding c, a, b. -/
theorem applySnapTarget_shape_witness :
    (findWindow (applySnapTarget resolverConst false sThree
        (⟨1, [idA, idB]⟩ : SnapGroup)).windows idA).map SnapWindow.groupId = some 3 ∧
    (findGroup (applySnapTarget resolverConst false sThree
        (⟨1, [idA, idB]⟩ : SnapGroup)).groups 3).map SnapGroup.members =
      some [idC, idA, idB] := by
  obtain ⟨h1, h2, h3⟩ := @applySnapTarget_shape sThree ⟨1, [idA, idB]⟩ ⟨3, [idC]⟩ tValid
    resolverConst (by unfold WF NEall; decide) (by decide) rfl rfl (by decide) (by decide)
  constructor
  · obtain ⟨w, hfw, hfw2⟩ := h1 idA (by decide)
    rw [hfw2]
    rfl
  · obtain ⟨tg2, he, hm⟩ := h2
    have he3 : findGroup (applySnapTarget resolverConst false sThree
        (⟨1, [idA, idB]⟩ : SnapGroup)).groups 3 = some tg2 := he
    rw [he3]
    simp [hm]

